import Mathlib

/-!
# A verification development for the `yetanotherlisp` S-expression evaluator

Shallow embedding of `src/main.rs`: the fixed-capacity cell arena with a
free list (`CellStorage`), the symbol table (`Env`), the operator table
(`DefaultNS`), the byte-level lexer (`next_token`), the recursive-descent
parser (`parse_sexp` / `parse_sexps`), the printer (`print_exp`) and the
recursive evaluator (`eval` / `eval_cons` / `eval_arithmetic`).

Modelling conventions:
* Machine integers (`i32`) are modelled as `Int` with explicit wrapping
  (`wrap32`) where the Rust program relies on native two's-complement
  semantics; `usize` indices are `Nat`.
* Input and output text are byte lists (`List Nat`); the Rust program reads
  raw bytes and casts each byte to `char` (`b as char`), so the characters
  the lexer sees are exactly the code points `0`..`255`.
* Fallible computations return `Except RtError`.  `RtError.panic` models a
  Rust `panic!` / failed `assert_eq!` / failed `unwrap` (a process abort);
  `RtError.evalErr` models a recoverable `Result::Err(EvalError)` value
  returned to the caller; `RtError.outOfFuel` is the artefact of modelling
  a recursive Rust function by structural recursion on a fuel parameter and
  corresponds to non-termination / unbounded recursion, which no theorem
  below ever relies on.
* Recursion that is not structural in the Rust source (`free_cell`, `eval`,
  the parser, the printer) takes an explicit fuel argument.
-/

/-- Cell value tags, from `enum CellType` in src/main.rs.  `Cons` stores the
head index; the tail index lives in the cell's `tail` field. -/
inductive CellType where
  | Number (n : Int)
  | Symbol (s : Nat)
  | Cons (head : Nat)
  | Free
deriving DecidableEq, Repr

/-- One arena slot, from `struct Cell`: a tagged value plus a tail index. -/
structure Cell where
  val : CellType
  tail : Nat
deriving DecidableEq, Repr

/-- The reserved nil sentinel index (`const NIL_INDEX: CellIndex = 0`). -/
def NIL_INDEX : Nat := 0

/-- `Cell::empty()`: a free cell whose tail is the nil index. -/
def Cell.empty : Cell := ⟨CellType.Free, NIL_INDEX⟩

/-- `Cell::new(val, tail)`. -/
def Cell.new (val : CellType) (tail : Nat) : Cell := ⟨val, tail⟩

/-- The arena, from `struct CellStorage`: the head of the free list plus the
cell buffer (`&mut [Cell]` is modelled as a list of cells). -/
structure CellStorage where
  free_index : Nat
  cells : List Cell
deriving DecidableEq, Repr

/-- Evaluation errors, from `enum EvalError`. -/
inductive EvalError where
  | IllegalOperator
  | NonUnary
  | NotCons (exp : Nat)
  | NonBinary
  | NonNumeric
  | UnknownOperator (op : Nat)
deriving DecidableEq, Repr

/-- Failure modes of the embedded program.  `panic` is a process abort
(`panic!`, a failed `assert_eq!` or `unwrap`); `evalErr` is a recoverable
`Result::Err` returned to the caller; `outOfFuel` models non-termination of
the modelled recursion and is never produced when enough fuel is given. -/
inductive RtError where
  | panic (msg : String)
  | evalErr (e : EvalError)
  | outOfFuel
deriving DecidableEq, Repr

deriving instance DecidableEq for Except

/-- Reading a cell (`self.cells[idx]`).  Rust would abort on an
out-of-range index; every read the program performs is in range (indices
come from the free list or from live cells), so the read is modelled
totally with `Cell.empty` as the out-of-range default. -/
def CellStorage.get (s : CellStorage) (idx : Nat) : Cell :=
  s.cells.getD idx Cell.empty

/-- `CellStorage::val_of`. -/
def CellStorage.val_of (s : CellStorage) (idx : Nat) : CellType :=
  (s.get idx).val

/-- `CellStorage::tail_of`. -/
def CellStorage.tail_of (s : CellStorage) (idx : Nat) : Nat :=
  (s.get idx).tail

/-- `CellStorage::set_tail(idx, tail)`. -/
def CellStorage.set_tail (s : CellStorage) (idx : Nat) (tail : Nat) : CellStorage :=
  ⟨s.free_index, s.cells.set idx ⟨(s.get idx).val, tail⟩⟩

/-- `CellStorage::alloc_cell`: pops the head of the free list, stores the
value there and resets the tail to nil.  An empty free list is a
`panic!("Exhausted cell storage!")`, i.e. a process abort, not a
recoverable error (`alloc_cell` has no error channel in its signature). -/
def CellStorage.alloc_cell (s : CellStorage) (v : CellType) :
    Except RtError (Nat × CellStorage) :=
  if s.free_index = NIL_INDEX then
    .error (.panic "Exhausted cell storage!")
  else
    let idx := s.free_index
    let next := s.tail_of idx
    .ok (idx, ⟨next, s.cells.set idx ⟨v, NIL_INDEX⟩⟩)

/-- `CellStorage::free_cell`: atoms are relinked onto the free list, a
`Cons` cell recursively frees its head, then its tail, then relinks itself;
a cell that is already `Free` (the wildcard arm, which also covers the nil
sentinel) is a no-op.  The Rust recursion is modelled with fuel; `none`
models unbounded recursion. -/
def CellStorage.free_cell (fuel : Nat) (s : CellStorage) (idx : Nat) :
    Option CellStorage :=
  match fuel with
  | 0 => none
  | f + 1 =>
    match (s.get idx).val with
    | .Number _ => some ⟨idx, s.cells.set idx (Cell.new CellType.Free s.free_index)⟩
    | .Symbol _ => some ⟨idx, s.cells.set idx (Cell.new CellType.Free s.free_index)⟩
    | .Cons head => do
      let s1 ← CellStorage.free_cell f s head
      let tl := s1.tail_of idx
      let s2 ← CellStorage.free_cell f s1 tl
      some ⟨idx, s2.cells.set idx (Cell.new CellType.Free s2.free_index)⟩
    | .Free => some s

/-- `init_storage`: links cells `1 .. n-2` into a chain (`buf[idx].tail =
idx + 1` for `idx` in `1..n-1`) over a buffer of `n` copies of
`Cell::empty()`; `CellStorage::new` then sets `free_index` to
`NIL_INDEX + 1 = 1`. -/
def init_storage (n : Nat) : CellStorage :=
  ⟨NIL_INDEX + 1,
   (List.range n).map (fun i =>
     if 1 ≤ i ∧ i < n - 1 then ⟨CellType.Free, i + 1⟩ else Cell.empty)⟩

/-- The `car!` macro: the head of a `Cons` cell; anything else is
`panic!("Not a cons cell")`. -/
def carE (exp : Nat) (s : CellStorage) : Except RtError Nat :=
  match s.val_of exp with
  | .Cons head => .ok head
  | _ => .error (.panic "Not a cons cell")

/-- The `cdr!` macro: the tail of a `Cons` cell, and `NIL_INDEX` for any
non-`Cons` cell (no failure branch in the source). -/
def cdrM (exp : Nat) (s : CellStorage) : Nat :=
  match s.val_of exp with
  | .Cons _ => s.tail_of exp
  | _ => NIL_INDEX

/-- `fn is_cons`. -/
def is_cons (exp : Nat) (cells : CellStorage) : Bool :=
  match cells.val_of exp with
  | .Cons _ => true
  | _ => false

/-- `fn is_unary`: the expression is a two-element proper list. -/
def is_unary (exp : Nat) (cells : CellStorage) : Bool :=
  is_cons (cdrM exp cells) cells && (cdrM (cdrM exp cells) cells == NIL_INDEX)

/-- `fn is_binary`: the expression is a three-element proper list. -/
def is_binary (exp : Nat) (cells : CellStorage) : Bool :=
  is_cons (cdrM exp cells) cells && is_cons (cdrM (cdrM exp cells) cells) cells &&
    (cdrM (cdrM (cdrM exp cells) cells) cells == NIL_INDEX)

/-- `fn is_atom`: numbers and symbols are atoms; anything else is an atom
exactly when it is the nil sentinel. -/
def is_atom (exp : Nat) (cells : CellStorage) : Bool :=
  match cells.val_of exp with
  | .Number _ => true
  | .Symbol _ => true
  | _ => exp == NIL_INDEX

/-- The symbol table, from `struct Env`: an append-only list of interned
names.  Names are lists of character code points (the Rust `String`s here
only ever hold characters below 256, each produced by a `u8 as char`
cast). -/
structure Env where
  symbols : List (List Nat)
deriving DecidableEq, Repr

/-- `Env::new()`. -/
def Env.new : Env := ⟨[]⟩

/-- `Env::add_sym`: linear scan for an existing name (first match), else
append and return the new index. -/
def Env.add_sym (env : Env) (name : List Nat) : Nat × Env :=
  match env.symbols.findIdx? (fun s => s == name) with
  | some idx => (idx, env)
  | none => (env.symbols.length, ⟨env.symbols ++ [name]⟩)

/-- Helper: the code points of a string literal, for the operator names
interned at startup. -/
def strName (s : String) : List Nat := s.toList.map Char.toNat

/-- The operator table, from `struct DefaultNS`. -/
structure DefaultNS where
  add : Nat
  sub : Nat
  mul : Nat
  div : Nat
  modu : Nat
  cons : Nat
  hd : Nat
  tl : Nat
  quote : Nat
deriving DecidableEq, Repr

/-- `DefaultNS::new`: interns the nine operator names in source order.
Note that the quote operator is bound to the one-character name `'`
(code point 39), not to the name `quote`. -/
def DefaultNS.new (env : Env) : DefaultNS × Env :=
  let (add, env) := env.add_sym (strName "add")
  let (sub, env) := env.add_sym (strName "sub")
  let (mul, env) := env.add_sym (strName "mul")
  let (div, env) := env.add_sym (strName "div")
  let (modu, env) := env.add_sym (strName "mod")
  let (cons, env) := env.add_sym (strName "cons")
  let (hd, env) := env.add_sym (strName "hd")
  let (tl, env) := env.add_sym (strName "tl")
  let (quote, env) := env.add_sym [39]
  (⟨add, sub, mul, div, modu, cons, hd, tl, quote⟩, env)

/-- The state produced at startup by `main`: `Env::new()` followed by
`DefaultNS::new(&mut env)`. -/
def startupPair : DefaultNS × Env := DefaultNS.new Env.new

/-- The operator table of the running program. -/
def stdNS : DefaultNS := startupPair.1

/-- The symbol table right after startup. -/
def stdEnv : Env := startupPair.2

/-! ## Lexer -/

/-- `char::is_digit(10)` for the code points `0..256` reachable through a
`u8 as char` cast. -/
def is_digit10 (c : Nat) : Bool := 48 ≤ c && c ≤ 57

/-- `char::is_alphanumeric` for the code points `0..256` reachable through
a `u8 as char` cast: ASCII digits and letters, the Latin-1 letters
U+00AA, U+00B5, U+00BA, U+00C0-U+00D6, U+00D8-U+00F6, U+00F8-U+00FF, and
the Latin-1 numeric characters U+00B2, U+00B3, U+00B9. -/
def is_alphanumeric (c : Nat) : Bool :=
  is_digit10 c || (65 ≤ c && c ≤ 90) || (97 ≤ c && c ≤ 122) ||
    c == 170 || c == 181 || c == 186 || c == 178 || c == 179 || c == 185 ||
    (192 ≤ c && c ≤ 214) || (216 ≤ c && c ≤ 246) || (248 ≤ c && c ≤ 255)

/-- `char::is_whitespace` for the code points `0..256`: the ASCII
whitespace characters plus U+0085 (next line) and U+00A0 (no-break
space). -/
def is_whitespace (c : Nat) : Bool :=
  c == 9 || c == 10 || c == 11 || c == 12 || c == 13 || c == 32 ||
    c == 133 || c == 160

/-- Tokens, from `enum Token`. -/
inductive Token where
  | LeftParen
  | RightParen
  | Dot
  | Number (s : List Nat)
  | Symbol (s : List Nat)
deriving DecidableEq, Repr

/-- `TokenStream::consume_while`: the maximal prefix satisfying the test,
together with the rest of the input.  The cursor-based Rust stream is
modelled by its remaining input. -/
def consume_while (test : Nat → Bool) : List Nat → List Nat × List Nat
  | [] => ([], [])
  | c :: rest =>
    if test c then
      let (r, rem) := consume_while test rest
      (c :: r, rem)
    else ([], c :: rest)

/-- `TokenStream::consume_whitespace`. -/
def consume_whitespace (l : List Nat) : List Nat :=
  (consume_while is_whitespace l).2

/-- `TokenStream::next_token`: skip whitespace, classify the next
character.  End of input is the explicit no-token result `none`; an
unrecognized character is a `panic!` (process abort).  A tick produces the
one-character symbol `'` (code point 39). -/
def next_token (l : List Nat) : Except RtError (Option Token × List Nat) :=
  match consume_whitespace l with
  | [] => .ok (none, [])
  | c :: rest =>
    if c = 40 then .ok (some Token.LeftParen, rest)
    else if c = 41 then .ok (some Token.RightParen, rest)
    else if c = 46 then .ok (some Token.Dot, rest)
    else if c = 39 then .ok (some (Token.Symbol [39]), rest)
    else if is_digit10 c then
      let (r, rem) := consume_while is_digit10 (c :: rest)
      .ok (some (Token.Number r), rem)
    else if is_alphanumeric c then
      let (r, rem) := consume_while is_alphanumeric (c :: rest)
      .ok (some (Token.Symbol r), rem)
    else .error (.panic "Syntax error")

/-! ## Number conversion -/

/-- The numeric value of a digit string, most significant digit first. -/
def digitsToNat (l : List Nat) : Nat :=
  l.foldl (fun acc c => acc * 10 + (c - 48)) 0

/-- `str_num.parse::<i32>().unwrap()` on a non-empty all-digit string: the
value if it fits in an `i32`, otherwise a failed `unwrap` — a `panic!`
(process abort), not a recoverable parse outcome. -/
def parse_i32 (l : List Nat) : Except RtError Int :=
  if digitsToNat l ≤ 2147483647 then .ok (digitsToNat l : Nat)
  else .error (.panic "called Option unwrap on a ParseIntError value")

/-! ## Parser

The `Parser` struct's fields `nesting`, `exp`, `exps`, `car`, `cdr` are
write-only scratch state (`nesting` only drives the REPL prompt), so the
parse functions are modelled as pure functions of the remaining input, the
storage and the symbol table.  They return `.ok (none, ...)` where the Rust
functions return `None` (parse failure / end of input), and a `panic` where
the Rust code would abort (the `assert_eq!(tok, Token::LeftParen)` and the
unchecked `i32` conversion). -/

/-- The result of a parse step: the Rust `Option<CellIndex>` outcome plus
the storage, the symbol table and the remaining input (the mutable
arguments of the Rust functions). -/
abbrev ParseOut := Except RtError (Option Nat × CellStorage × Env × List Nat)

/-- The body of `Parser::parse_sexp`, with the mutually recursive call to
`parse_sexps` abstracted into the parameter `psexps` (the fuel plumbing
lives in `parseF` below). -/
def parse_sexp_go (psexps : List Nat → CellStorage → Env → ParseOut)
    (input : List Nat) (storage : CellStorage) (env : Env) : ParseOut := do
    let (tok, input1) ← next_token input
    match tok with
    | some (Token.Number str_num) => do
      let nval ← parse_i32 str_num
      let (idx, storage) ← storage.alloc_cell (.Number nval)
      .ok (some idx, storage, env, input1)
    | some (Token.Symbol name) => do
      let (si, env) := env.add_sym name
      let (idx, storage) ← storage.alloc_cell (.Symbol si)
      .ok (some idx, storage, env, input1)
    | some tok =>
      if tok = Token.LeftParen then do
        match ← psexps input1 storage env with
        | (some exps, storage, env, input2) => do
          let (tok2, input3) ← next_token input2
          match tok2 with
          | some Token.RightParen => .ok (some exps, storage, env, input3)
          | _ => .ok (none, storage, env, input3)
        | (none, storage, env, input2) => .ok (none, storage, env, input2)
      else .error (.panic "assertion failed")
    | none => .ok (none, storage, env, input1)

/-- The body of `Parser::parse_sexps`, the mutually recursive calls
abstracted into `psexp` and `psexps`.  The two `peek_token()` calls are
modelled by calling `next_token` and discarding the new cursor. -/
def parse_sexps_go (psexp psexps : List Nat → CellStorage → Env → ParseOut)
    (input : List Nat) (storage : CellStorage) (env : Env) : ParseOut := do
  let (ptok, _) ← next_token input
  match ptok with
  | some Token.RightParen => .ok (some NIL_INDEX, storage, env, input)
  | _ =>
    match ← psexp input storage env with
    | (some car, storage, env, input1) => do
      let (ptok2, _) ← next_token input1
      let step ←
        (if ptok2 = some Token.Dot then do
          let (_, input2) ← next_token input1
          psexp input2 storage env
        else psexps input1 storage env)
      match step with
      | (some cdr, storage, env, input3) => do
        let (idx, storage) ← storage.alloc_cell (.Cons car)
        .ok (some idx, storage.set_tail idx cdr, env, input3)
      | (none, storage, env, input3) => .ok (none, storage, env, input3)
    | (none, storage, env, input1) => .ok (none, storage, env, input1)

/-- The fuel-indexed pair of parse functions; fuel stands for the Rust
call stack, and each recursive call in the source descends one fuel
level.  Structural recursion on the fuel keeps the definition computable
by the kernel. -/
def parseF : Nat → ((List Nat → CellStorage → Env → ParseOut) ×
    (List Nat → CellStorage → Env → ParseOut))
  | 0 => (fun _ _ _ => .error .outOfFuel, fun _ _ _ => .error .outOfFuel)
  | g + 1 =>
    (parse_sexp_go (parseF g).2, parse_sexps_go (parseF g).1 (parseF g).2)

/-- `Parser::parse_sexp` at a given fuel. -/
def parse_sexp (f : Nat) (input : List Nat) (storage : CellStorage) (env : Env) :
    ParseOut :=
  (parseF f).1 input storage env

/-- `Parser::parse_sexps` at a given fuel. -/
def parse_sexps (f : Nat) (input : List Nat) (storage : CellStorage) (env : Env) :
    ParseOut :=
  (parseF f).2 input storage env

/-! ## Printer

`print_exp` / `print_list` write to stdout; they are modelled as functions
producing the printed bytes.  Rust's `print!("{}", string)` emits the
UTF-8 encoding of the string, which matters because interned names can
hold characters in 128..256. -/

/-- The UTF-8 bytes of a list of code points below 2048 (names only ever
hold code points below 256). -/
def utf8encode (name : List Nat) : List Nat :=
  (name.map (fun c => if c < 128 then [c] else [192 + c / 64, 128 + c % 64])).flatten

/-- The decimal digit string of a natural number, with fuel (one fuel
level per digit; `n + 1` is always enough). -/
def nat_decimal_go : Nat → Nat → List Nat
  | 0, _ => []
  | f + 1, n =>
    if n < 10 then [48 + n]
    else nat_decimal_go f (n / 10) ++ [48 + n % 10]

/-- The decimal digit string of a natural number. -/
def nat_decimal (n : Nat) : List Nat := nat_decimal_go (n + 1) n

/-- `print!("{}", n)` for an `i32` value. -/
def int_decimal (n : Int) : List Nat :=
  if n < 0 then 45 :: nat_decimal (-n).toNat else nat_decimal n.toNat

/-- The body of `fn print_list`, its calls to `print_exp` and to its own
while-loop abstracted into `pexp` and `ptail`: an opening paren, the head
via `car!` (the cell is a `Cons` whenever `print_list` is reached, so the
`car!` cannot abort; the non-`Cons` branch below is unreachable), then the
walk over the tail chain. -/
def print_list_go (pexp ptail : Nat → List Nat) (s : CellStorage) (idx : Nat) :
    List Nat :=
  match (s.get idx).val with
  | .Cons h => 40 :: (pexp h ++ ptail (s.tail_of idx))
  | _ => []

/-- The fuel-indexed pair (`print_exp`, the while loop of `print_list`);
each recursive call in the source descends one fuel level.

`print_exp`: nil prints as `()`, a symbol as its interned name, a number
in decimal, a `Cons` via `print_list`; a `Free` cell prints nothing (the
wildcard arm).  The second component is the
`while let CellType::Cons(head) = cell.val` loop of `print_list` plus the
trailing dotted-tail case and the closing paren. -/
def printF : Nat → ((CellStorage → Env → Nat → List Nat) ×
    (CellStorage → Env → Nat → List Nat))
  | 0 => (fun _ _ _ => [], fun _ _ _ => [])
  | g + 1 =>
    (fun s env idx =>
      if idx = NIL_INDEX then [40, 41]
      else
        match (s.get idx).val with
        | .Symbol sym => utf8encode (env.symbols.getD sym [])
        | .Number n => int_decimal n
        | .Cons _ => print_list_go ((printF g).1 s env) ((printF g).2 s env) s idx
        | .Free => [],
     fun s env exp =>
      match (s.get exp).val with
      | .Cons head => 32 :: ((printF g).1 s env head ++ (printF g).2 s env (s.tail_of exp))
      | _ =>
        if exp = NIL_INDEX then [41]
        else 32 :: 46 :: 32 :: ((printF g).1 s env exp ++ [41]))

/-- `fn print_exp` at a given fuel, as the list of bytes written to
stdout. -/
def print_exp (f : Nat) (s : CellStorage) (env : Env) (idx : Nat) : List Nat :=
  (printF f).1 s env idx

/-- The tail-walking loop of `fn print_list` at a given fuel. -/
def print_tail (f : Nat) (s : CellStorage) (env : Env) (exp : Nat) : List Nat :=
  (printF f).2 s env exp

/-- `fn print_list` at a given fuel. -/
def print_list (f : Nat) (s : CellStorage) (env : Env) (idx : Nat) : List Nat :=
  print_list_go (print_exp f s env) (print_tail f s env) s idx

/-! ## Evaluator -/

/-- `fn split_binary`: the two operand indices of a three-element list,
via the (guarded) `car!` / `cdr!` macros. -/
def split_binary (exp : Nat) (cells : CellStorage) : Except RtError (Nat × Nat) := do
  let head ← carE (cdrM exp cells) cells
  let tail ← carE (cdrM (cdrM exp cells) cells) cells
  .ok (head, tail)

/-- The minimum `i32` value. -/
def i32Min : Int := -2147483648

/-- Two's-complement wrapping into the `i32` range, the release-profile
behaviour of the native `+`, `-`, `*` the source relies on. -/
def wrap32 (n : Int) : Int := (n + 2147483648) % 4294967296 - 2147483648

/-- Rust `a / b` on `i32`: truncating division; a zero divisor and
`i32::MIN / -1` abort the process (in every build profile). -/
def rustDiv (a b : Int) : Except RtError Int :=
  if b = 0 then .error (.panic "attempt to divide by zero")
  else if a = i32Min ∧ b = -1 then .error (.panic "attempt to divide with overflow")
  else .ok (a.tdiv b)

/-- Rust `a % b` on `i32`: the remainder matching truncating division; a
zero divisor and `i32::MIN % -1` abort the process. -/
def rustRem (a b : Int) : Except RtError Int :=
  if b = 0 then .error (.panic "attempt to calculate the remainder with a divisor of zero")
  else if a = i32Min ∧ b = -1 then .error (.panic "attempt to calculate the remainder with overflow")
  else .ok (a.tmod b)

/-- The result of an evaluation step: the Rust
`Result<CellIndex, EvalError>` outcome (with panics and fuel exhaustion
folded into the error side) paired with the storage and the symbol table,
which survive an `Err` return through the `&mut` references. -/
abbrev EvalOut := Except RtError Nat × CellStorage × Env

/-- The body of `fn eval_cons`, the recursive calls to `eval` abstracted
into `ev`: checks `is_binary`, evaluates both operands left to right,
allocates a fresh `Cons` owning the two results. -/
def eval_cons_go (ev : Nat → CellStorage → Env → DefaultNS → EvalOut)
    (exp : Nat) (cells : CellStorage) (env : Env) (ns : DefaultNS) : EvalOut :=
  if !(is_binary exp cells) then (.error (.evalErr .NonBinary), cells, env)
  else
    match split_binary exp cells with
    | .error e => (.error e, cells, env)
    | .ok (head, tail) =>
      match ev head cells env ns with
      | (.error e, cells, env) => (.error e, cells, env)
      | (.ok headv, cells, env) =>
        match ev tail cells env ns with
        | (.error e, cells, env) => (.error e, cells, env)
        | (.ok tailv, cells, env) =>
          match cells.alloc_cell (.Cons headv) with
          | .error e => (.error e, cells, env)
          | .ok (cons_cell, cells) =>
            (.ok cons_cell, cells.set_tail cons_cell tailv, env)

/-- The body of `fn eval_arithmetic`, the recursive calls to `eval`
abstracted into `ev`: checks `is_binary`, evaluates both operands left to
right, requires both results to be `Number` cells, computes with native
`i32` semantics and allocates a fresh `Number` cell for the result. -/
def eval_arithmetic_go (ev : Nat → CellStorage → Env → DefaultNS → EvalOut)
    (op : Nat) (exp : Nat) (cells : CellStorage) (env : Env) (ns : DefaultNS) :
    EvalOut :=
  if !(is_binary exp cells) then (.error (.evalErr .NonBinary), cells, env)
  else
    match split_binary exp cells with
    | .error e => (.error e, cells, env)
    | .ok (head, tail) =>
      match ev head cells env ns with
      | (.error e, cells, env) => (.error e, cells, env)
      | (.ok lhs, cells, env) =>
        match ev tail cells env ns with
        | (.error e, cells, env) => (.error e, cells, env)
        | (.ok rhs, cells, env) =>
          match cells.val_of lhs, cells.val_of rhs with
          | .Number a, .Number b =>
            (match (if op = ns.add then .ok (wrap32 (a + b))
                    else if op = ns.sub then .ok (wrap32 (a - b))
                    else if op = ns.mul then .ok (wrap32 (a * b))
                    else if op = ns.div then rustDiv a b
                    else rustRem a b : Except RtError Int) with
             | .error e => (.error e, cells, env)
             | .ok n =>
               match cells.alloc_cell (.Number n) with
               | .error e => (.error e, cells, env)
               | .ok (idx, cells) => (.ok idx, cells, env))
          | _, _ => (.error (.evalErr .NonNumeric), cells, env)

/-- The fuel-indexed evaluator, the body of `fn eval`; every recursive
call in the source descends one fuel level.  Atoms evaluate to their own
index; a `Cons`-headed expression dispatches on its head symbol; a
non-symbol head is `IllegalOperator`; a non-atom, non-`Cons` expression (a
live `Free` cell) is `panic!("Invalid expression")`. -/
def evalF : Nat → (Nat → CellStorage → Env → DefaultNS → EvalOut)
  | 0 => fun _ cells env _ => (.error .outOfFuel, cells, env)
  | g + 1 => fun exp cells env ns =>
    let cell := cells.get exp
    if is_atom exp cells then (.ok exp, cells, env)
    else
      match cell.val with
      | .Cons head =>
        (match cells.val_of head with
         | .Symbol op =>
           if op = ns.quote then
             if !(is_unary exp cells) then (.error (.evalErr .NonUnary), cells, env)
             else
               match carE (cdrM exp cells) cells with
               | .ok r => (.ok r, cells, env)
               | .error e => (.error e, cells, env)
           else if op = ns.hd || op = ns.tl then
             if !(is_unary exp cells) then (.error (.evalErr .NonUnary), cells, env)
             else
               match carE (cdrM exp cells) cells with
               | .error e => (.error e, cells, env)
               | .ok a =>
                 match evalF g a cells env ns with
                 | (.error e, cells, env) => (.error e, cells, env)
                 | (.ok res, cells, env) =>
                   if !(is_cons res cells) then
                     (.error (.evalErr (.NotCons exp)), cells, env)
                   else if op = ns.hd then
                     match carE res cells with
                     | .ok r => (.ok r, cells, env)
                     | .error e => (.error e, cells, env)
                   else (.ok (cdrM res cells), cells, env)
           else if op = ns.cons then eval_cons_go (evalF g) exp cells env ns
           else if op = ns.add || op = ns.sub || op = ns.mul || op = ns.div ||
               op = ns.modu then
             eval_arithmetic_go (evalF g) op exp cells env ns
           else (.error (.evalErr (.UnknownOperator op)), cells, env)
         | _ => (.error (.evalErr .IllegalOperator), cells, env))
      | _ => (.error (.panic "Invalid expression"), cells, env)

/-- `fn eval` at a given fuel. -/
def eval (f : Nat) (exp : Nat) (cells : CellStorage) (env : Env) (ns : DefaultNS) :
    EvalOut :=
  evalF f exp cells env ns

/-- `fn eval_cons` at a given fuel. -/
def eval_cons (f : Nat) (exp : Nat) (cells : CellStorage) (env : Env)
    (ns : DefaultNS) : EvalOut :=
  eval_cons_go (evalF f) exp cells env ns

/-- `fn eval_arithmetic` at a given fuel. -/
def eval_arithmetic (f : Nat) (op : Nat) (exp : Nat) (cells : CellStorage) (env : Env)
    (ns : DefaultNS) : EvalOut :=
  eval_arithmetic_go (evalF f) op exp cells env ns

/-- One iteration of the REPL loop in `main` after a successful parse of
the tree at `idx`: evaluate; on success free the result tree, then free
the input tree; on a recoverable evaluation error just free the input
tree.  `none` models an iteration on which the process aborts (an
evaluation `panic!`) or a free that does not terminate. -/
def loop_body (f : Nat) (idx : Nat) (storage : CellStorage) (env : Env) (ns : DefaultNS) :
    Option CellStorage :=
  match eval f idx storage env ns with
  | (.ok exp, storage, _) => do
    let storage ← CellStorage.free_cell f storage exp
    CellStorage.free_cell f storage idx
  | (.error (.evalErr _), storage, _) => CellStorage.free_cell f storage idx
  | (.error _, _, _) => none

/-- The number of free cells in the arena. -/
def free_count (s : CellStorage) : Nat :=
  s.cells.countP (fun c => c.val == CellType.Free)

/-! ## Abstract expression trees

The claims compare expression trees "structurally"; `SExp` is the abstract
tree shape and `readT` extracts the tree rooted at an arena index (with
fuel, since an ill-formed arena could tie a cycle).  `TreeAt` is the
relational version, which additionally records the list of arena cells the
tree occupies. -/

inductive SExp where
  | nil
  | num (n : Int)
  | sym (k : Nat)
  | cons (a b : SExp)
deriving DecidableEq, Repr

/-- Extract the abstract tree rooted at `idx`. -/
def readT (f : Nat) (s : CellStorage) (idx : Nat) : Option SExp :=
  match f with
  | 0 => none
  | g + 1 =>
    if idx = NIL_INDEX then some .nil
    else
      match (s.get idx).val with
      | .Number n => some (.num n)
      | .Symbol k => some (.sym k)
      | .Cons h => do
        let a ← readT g s h
        let b ← readT g s (s.get idx).tail
        some (.cons a b)
      | .Free => none

/-- The tree `t` sits at index `idx` of storage `s`, occupying exactly the
cells listed in `C` (the nil sentinel occupies no cell). -/
inductive TreeAt : CellStorage → Nat → SExp → List Nat → Prop where
  | nil {s : CellStorage} : TreeAt s NIL_INDEX SExp.nil []
  | num {s : CellStorage} {i : Nat} {n : Int} (hi : i ≠ NIL_INDEX)
      (hv : (s.get i).val = .Number n) : TreeAt s i (.num n) [i]
  | sym {s : CellStorage} {i k : Nat} (hi : i ≠ NIL_INDEX)
      (hv : (s.get i).val = .Symbol k) : TreeAt s i (.sym k) [i]
  | cons {s : CellStorage} {i h : Nat} {a b : SExp} {Ca Cb : List Nat}
      (hi : i ≠ NIL_INDEX) (hv : (s.get i).val = .Cons h)
      (ha : TreeAt s h a Ca) (hb : TreeAt s (s.get i).tail b Cb) :
      TreeAt s i (.cons a b) (i :: (Ca ++ Cb))

/-- The free list of `s` is exactly the chain `l` starting at cursor `i`:
every link is a distinct in-range `Free` cell and the chain ends at the
nil sentinel. -/
def freeChainB (s : CellStorage) : List Nat → Nat → Bool
  | [], i => i == NIL_INDEX
  | j :: l, i =>
    i == j && decide (0 < j) && decide (j < s.cells.length) &&
      (s.val_of j == CellType.Free) && freeChainB s l (s.tail_of j)

/-- The arena invariant: the free list is the duplicate-free chain `l`. -/
def StorageInv (s : CellStorage) (l : List Nat) : Prop :=
  freeChainB s l s.free_index = true ∧ l.Nodup

/-! ## Concrete example arenas

Hand-laid-out arenas used to instantiate the theorems below on concrete
inputs.  Cell 0 is the nil sentinel; symbol indices refer to `stdEnv`
(0 = add, 1 = sub, 2 = mul, 3 = div, 4 = mod, 5 = cons, 6 = hd, 7 = tl,
8 = the tick). -/

/-- The tree `(div 1 0)` rooted at index 6, with one free cell at 7. -/
def egDivZero : CellStorage :=
  ⟨7, [Cell.empty,
    ⟨CellType.Symbol 3, 0⟩,
    ⟨CellType.Number 1, 0⟩,
    ⟨CellType.Number 0, 0⟩,
    ⟨CellType.Cons 3, 0⟩,
    ⟨CellType.Cons 2, 4⟩,
    ⟨CellType.Cons 1, 5⟩,
    ⟨CellType.Free, 0⟩]⟩

/-- The tree `(div -2147483648 -1)` rooted at index 6 (negative numbers
cannot be written in source text but arise from evaluation; the cells are
laid out directly), with one free cell at 7. -/
def egDivOverflow : CellStorage :=
  ⟨7, [Cell.empty,
    ⟨CellType.Symbol 3, 0⟩,
    ⟨CellType.Number (-2147483648), 0⟩,
    ⟨CellType.Number (-1), 0⟩,
    ⟨CellType.Cons 3, 0⟩,
    ⟨CellType.Cons 2, 4⟩,
    ⟨CellType.Cons 1, 5⟩,
    ⟨CellType.Free, 0⟩]⟩

/-- The tree `(hd (cons 1 2))` rooted at index 9, with one free cell at
10. -/
def egHdCons : CellStorage :=
  ⟨10, [Cell.empty,
    ⟨CellType.Symbol 6, 0⟩,
    ⟨CellType.Symbol 5, 0⟩,
    ⟨CellType.Number 1, 0⟩,
    ⟨CellType.Number 2, 0⟩,
    ⟨CellType.Cons 4, 0⟩,
    ⟨CellType.Cons 3, 5⟩,
    ⟨CellType.Cons 2, 6⟩,
    ⟨CellType.Cons 7, 0⟩,
    ⟨CellType.Cons 1, 8⟩,
    ⟨CellType.Free, 0⟩]⟩

/-- `egHdCons` after `(cons 1 2)` has been evaluated: cell 10 now holds
the freshly allocated pair `(1 . 2)` and the free list is empty. -/
def egHdConsAfter : CellStorage :=
  ⟨0, [Cell.empty,
    ⟨CellType.Symbol 6, 0⟩,
    ⟨CellType.Symbol 5, 0⟩,
    ⟨CellType.Number 1, 0⟩,
    ⟨CellType.Number 2, 0⟩,
    ⟨CellType.Cons 4, 0⟩,
    ⟨CellType.Cons 3, 5⟩,
    ⟨CellType.Cons 2, 6⟩,
    ⟨CellType.Cons 7, 0⟩,
    ⟨CellType.Cons 1, 8⟩,
    ⟨CellType.Cons 3, 4⟩]⟩

/-- The tree `(hd 5)` rooted at index 4. -/
def egHdFive : CellStorage :=
  ⟨5, [Cell.empty,
    ⟨CellType.Symbol 6, 0⟩,
    ⟨CellType.Number 5, 0⟩,
    ⟨CellType.Cons 2, 0⟩,
    ⟨CellType.Cons 1, 3⟩,
    ⟨CellType.Free, 0⟩]⟩

/-- The tree `(' 5)` (a one-operand quote) rooted at index 4. -/
def egQuoteFive : CellStorage :=
  ⟨5, [Cell.empty,
    ⟨CellType.Symbol 8, 0⟩,
    ⟨CellType.Number 5, 0⟩,
    ⟨CellType.Cons 2, 0⟩,
    ⟨CellType.Cons 1, 3⟩,
    ⟨CellType.Free, 0⟩]⟩

/-- The tree `(add 1)` (a one-operand binary operator) rooted at index
4. -/
def egAddOne : CellStorage :=
  ⟨5, [Cell.empty,
    ⟨CellType.Symbol 0, 0⟩,
    ⟨CellType.Number 1, 0⟩,
    ⟨CellType.Cons 2, 0⟩,
    ⟨CellType.Cons 1, 3⟩,
    ⟨CellType.Free, 0⟩]⟩

/-- The tree `(' 1 2)` (a two-operand quote) rooted at index 6. -/
def egQuoteTwo : CellStorage :=
  ⟨7, [Cell.empty,
    ⟨CellType.Symbol 8, 0⟩,
    ⟨CellType.Number 1, 0⟩,
    ⟨CellType.Number 2, 0⟩,
    ⟨CellType.Cons 3, 0⟩,
    ⟨CellType.Cons 2, 4⟩,
    ⟨CellType.Cons 1, 5⟩,
    ⟨CellType.Free, 0⟩]⟩

/-- A tree `(quote 1)` rooted at index 4, where index 9 is the symbol
index the name `quote` receives when interned on top of the startup
table. -/
def egQuoteSpelled : CellStorage :=
  ⟨5, [Cell.empty,
    ⟨CellType.Symbol 9, 0⟩,
    ⟨CellType.Number 1, 0⟩,
    ⟨CellType.Cons 2, 0⟩,
    ⟨CellType.Cons 1, 3⟩,
    ⟨CellType.Free, 0⟩]⟩

/-- The tree `(add 2 3)` rooted at index 6, with one free cell at 7. -/
def egAddTwoThree : CellStorage :=
  ⟨7, [Cell.empty,
    ⟨CellType.Symbol 0, 0⟩,
    ⟨CellType.Number 2, 0⟩,
    ⟨CellType.Number 3, 0⟩,
    ⟨CellType.Cons 3, 0⟩,
    ⟨CellType.Cons 2, 4⟩,
    ⟨CellType.Cons 1, 5⟩,
    ⟨CellType.Free, 0⟩]⟩

/-- The value computed by `eval_arithmetic` once both operands are the
`i32` values `a` and `b` (on the non-aborting paths): wrapping addition,
subtraction and multiplication, truncating division and the matching
remainder. -/
def arith_result (op : Nat) (a b : Int) : Int :=
  if op = stdNS.add then wrap32 (a + b)
  else if op = stdNS.sub then wrap32 (a - b)
  else if op = stdNS.mul then wrap32 (a * b)
  else if op = stdNS.div then a.tdiv b
  else a.tmod b

/-! ## Round-trip infrastructure

The round-trip claim compares the result of re-parsing the canonical
printed text with the original parse result.  `sexpSize` and `cellCount`
measure abstract trees, `pbytesExp`/`pbytesTail` give the canonical
printed bytes of an abstract tree (they mirror `print_exp`/`print_list`
tree-by-tree, which `print_TreeAt` below makes precise), `tokenName`
characterizes the symbol names the lexer can produce from ASCII input, and
`WfSExp` is the well-formedness the parser guarantees for the trees it
builds. -/

/-- The number of constructors of an abstract tree. -/
def sexpSize : SExp → Nat
  | .nil => 1
  | .num _ => 1
  | .sym _ => 1
  | .cons a b => 1 + sexpSize a + sexpSize b

/-- The number of arena cells an abstract tree occupies (nil occupies
none). -/
def cellCount : SExp → Nat
  | .nil => 0
  | .num _ => 1
  | .sym _ => 1
  | .cons a b => 1 + cellCount a + cellCount b

mutual

/-- The canonical printed bytes of an abstract tree (what
`print_exp` emits for a tree whose symbol names are ASCII). -/
def pbytesExp (env : Env) : SExp → List Nat
  | .nil => [40, 41]
  | .num n => nat_decimal n.toNat
  | .sym k => env.symbols.getD k []
  | .cons a b => 40 :: (pbytesExp env a ++ pbytesTail env b)

/-- The canonical printed bytes of the tail of a list, mirroring the tail
walk of `print_list`: spaces between elements, ` . ` before a non-nil
atom tail, and the closing paren. -/
def pbytesTail (env : Env) : SExp → List Nat
  | .nil => [41]
  | .cons h t => 32 :: (pbytesExp env h ++ pbytesTail env t)
  | .num n => 32 :: 46 :: 32 :: (nat_decimal n.toNat ++ [41])
  | .sym k => 32 :: 46 :: 32 :: (env.symbols.getD k [] ++ [41])

end

/-- The shapes a `Token::Symbol` name can take when lexed from ASCII
input: the tick, or a non-empty all-ASCII-alphanumeric run that does not
start with a digit. -/
def tokenName (name : List Nat) : Bool :=
  name == [39] ||
    (!(name == []) && name.all (fun c => is_alphanumeric c && decide (c < 128)) &&
      !(is_digit10 (name.headD 0)))

/-- Well-formedness of an abstract tree relative to a symbol table:
numbers are in the non-negative `i32` range the parser can produce and
every symbol index is interned with a lexable ASCII name. -/
def WfSExp (env : Env) : SExp → Bool
  | .nil => true
  | .num n => decide (0 ≤ n) && decide (n ≤ 2147483647)
  | .sym k =>
    (match env.symbols.get? k with
     | some name => tokenName name
     | none => false)
  | .cons a b => WfSExp env a && WfSExp env b

/-- A byte list that can legally follow a printed element inside the
canonical text: empty, or starting with a space or a closing paren. -/
def SepB : List Nat → Bool
  | [] => true
  | c :: _ => c == 32 || c == 41

/-- The storage after parsing the single byte 181 (µ) in a fresh 8-cell
arena: one `Symbol` cell for the newly interned name `[181]`. -/
def cexSt1 : CellStorage :=
  ⟨2, [⟨CellType.Free, 0⟩, ⟨CellType.Symbol 9, 0⟩, ⟨CellType.Free, 3⟩,
    ⟨CellType.Free, 4⟩, ⟨CellType.Free, 5⟩, ⟨CellType.Free, 6⟩,
    ⟨CellType.Free, 7⟩, ⟨CellType.Free, 0⟩]⟩

/-- The symbol table after parsing the byte 181: the startup names plus
the one-character name `[181]` at index 9. -/
def cexEnv1 : Env := ⟨stdEnv.symbols ++ [[181]]⟩

/-- The storage after re-parsing the printed text `[194, 181]` (the UTF-8
encoding of µ): a second `Symbol` cell holding the different name
`[194, 181]`, interned at index 10. -/
def cexSt2 : CellStorage :=
  ⟨3, [⟨CellType.Free, 0⟩, ⟨CellType.Symbol 9, 0⟩, ⟨CellType.Symbol 10, 0⟩,
    ⟨CellType.Free, 4⟩, ⟨CellType.Free, 5⟩, ⟨CellType.Free, 6⟩,
    ⟨CellType.Free, 7⟩, ⟨CellType.Free, 0⟩]⟩

/-- The symbol table after the re-parse: the name `[194, 181]` appended at
index 10. -/
def cexEnv2 : Env := ⟨cexEnv1.symbols ++ [[194, 181]]⟩

/-- The postcondition of a successful parse step starting from a storage
whose free list is the chain `l`: the result index roots a well-formed
tree whose cells are (a permutation of) the consumed prefix of the chain,
the remaining chain is intact, untouched cells are unchanged, the symbol
table only grew and stays duplicate-free, and the remaining input is drawn
from the original input. -/
def ParsePost (input : List Nat) (s : CellStorage) (env : Env) (l : List Nat)
    (idx : Nat) (s2 : CellStorage) (env2 : Env) (rest : List Nat) : Prop :=
  ∃ t C, TreeAt s2 idx t C ∧ C.Perm (l.take C.length) ∧
    freeChainB s2 (l.drop C.length) s2.free_index = true ∧
    s2.cells.length = s.cells.length ∧
    (∀ j, j ∉ C → s2.get j = s.get j) ∧
    (∃ d, env2.symbols = env.symbols ++ d) ∧
    env2.symbols.Nodup ∧
    WfSExp env2 t = true ∧
    (∀ c ∈ rest, c ∈ input)

/-! # Theorems -/

/-! ## C2 — arena exhaustion -/

/-- C2, counterexample: with an empty free list, `alloc_cell` does not
return a recoverable error to the caller — it aborts the process with
`panic!("Exhausted cell storage!")` (its Rust signature has no error
channel at all). -/
theorem alloc_cell_empty_aborts :
    CellStorage.alloc_cell ⟨0, [Cell.empty, Cell.empty]⟩ (CellType.Number 1) =
      .error (.panic "Exhausted cell storage!") ∧
    ∀ r : Nat × CellStorage,
      CellStorage.alloc_cell ⟨0, [Cell.empty, Cell.empty]⟩ (CellType.Number 1) ≠ .ok r := by
  refine ⟨rfl, ?_⟩
  intro r h
  exact absurd (rfl.symm.trans h) (by simp [CellStorage.alloc_cell, NIL_INDEX])

/-- C2, amended: for every call to `allocate` when the arena's free list
is empty, the call terminates the process with the panic
"Exhausted cell storage!" instead of returning a recoverable
capacity-exhaustion error to the caller. -/
theorem alloc_cell_empty_panics (s : CellStorage) (v : CellType)
    (h : s.free_index = NIL_INDEX) :
    s.alloc_cell v = .error (.panic "Exhausted cell storage!") := by
  simp [CellStorage.alloc_cell, h]

/-- Witness for `alloc_cell_empty_panics`. -/
theorem alloc_cell_empty_panics_witness :
    (⟨0, [Cell.empty, Cell.empty]⟩ : CellStorage).free_index = NIL_INDEX ∧
    CellStorage.alloc_cell ⟨0, [Cell.empty, Cell.empty]⟩ (CellType.Symbol 2) =
      .error (.panic "Exhausted cell storage!") :=
  ⟨by decide, alloc_cell_empty_panics ⟨0, [Cell.empty, Cell.empty]⟩ (CellType.Symbol 2) (by decide)⟩

/-! ## C4 — quote returns the shared operand -/

/-- C4: evaluating an expression headed by the quote operator symbol with
exactly one operand returns the operand's own arena index (the head of the
second list cell, structurally shared with the input tree), and leaves the
arena and symbol table exactly unchanged — no cell is allocated or
copied. -/
theorem quote_shares_operand (f exp h i2 opd : Nat) (cells : CellStorage) (env : Env)
    (ns : DefaultNS)
    (hexp : exp ≠ NIL_INDEX)
    (hv : (cells.get exp).val = CellType.Cons h)
    (hh : (cells.get h).val = CellType.Symbol ns.quote)
    (ht : (cells.get exp).tail = i2)
    (hc : (cells.get i2).val = CellType.Cons opd)
    (hn : (cells.get i2).tail = NIL_INDEX) :
    eval (f + 1) exp cells env ns = (.ok opd, cells, env) := by
  have hatom : is_atom exp cells = false := by
    simp [is_atom, CellStorage.val_of, hv, hexp]
  have hun : is_unary exp cells = true := by
    simp [is_unary, is_cons, cdrM, CellStorage.val_of, CellStorage.tail_of, hv, ht, hc, hn]
  simp [eval, evalF, hatom, hv, hh, CellStorage.val_of, hun, carE, cdrM,
    CellStorage.tail_of, ht, hc]

/-- Witness for `quote_shares_operand`: `(' 5)` evaluates to the operand
cell 2 with the arena untouched. -/
theorem quote_shares_operand_witness :
    eval 1 4 egQuoteFive stdEnv stdNS = (.ok 2, egQuoteFive, stdEnv) :=
  quote_shares_operand 0 4 1 3 2 egQuoteFive stdEnv stdNS (by decide) (by decide)
    (by decide) (by decide) (by decide) (by decide)

/-! ## C10 — unchecked i32 conversion in the parser -/

/-- C10: on a digit run whose value exceeds the `i32` range the parser
does not produce the no-result outcome `none`: the unchecked
`parse::<i32>().unwrap()` aborts the process. -/
theorem parse_overflow_aborts :
    parse_sexp 4 (strName "9999999999") (init_storage 64) stdEnv =
      .error (.panic "called Option unwrap on a ParseIntError value") ∧
    ∀ out : Option Nat × CellStorage × Env × List Nat,
      parse_sexp 4 (strName "9999999999") (init_storage 64) stdEnv ≠ .ok out := by
  refine ⟨by decide, ?_⟩
  intro out h
  have h2 : (Except.error (RtError.panic "called Option unwrap on a ParseIntError value") :
      Except RtError (Option Nat × CellStorage × Env × List Nat)) = .ok out := by
    refine Eq.trans ?_ h
    decide
  exact absurd h2 (by simp)

/-- The concrete operator table produced at startup. -/
theorem stdNS_eq : stdNS = ⟨0, 1, 2, 3, 4, 5, 6, 7, 8⟩ := by decide

theorem stdNS_add : stdNS.add = 0 := by decide

theorem stdNS_sub : stdNS.sub = 1 := by decide

theorem stdNS_mul : stdNS.mul = 2 := by decide

theorem stdNS_div : stdNS.div = 3 := by decide

theorem stdNS_modu : stdNS.modu = 4 := by decide

theorem stdNS_cons : stdNS.cons = 5 := by decide

theorem stdNS_hd : stdNS.hd = 6 := by decide

theorem stdNS_tl : stdNS.tl = 7 := by decide

theorem stdNS_quote : stdNS.quote = 8 := by decide

/-! ## C3 — division and modulo by zero -/

/-- C3, counterexample: `(div 1 0)` does not fail with a recoverable
evaluation error — evaluation aborts the process with the division-by-zero
panic. -/
theorem div_by_zero_aborts :
    eval 2 6 egDivZero stdEnv stdNS =
      (.error (.panic "attempt to divide by zero"), egDivZero, stdEnv) ∧
    ∀ e : EvalError,
      (eval 2 6 egDivZero stdEnv stdNS).1 ≠ .error (.evalErr e) := by
  refine ⟨by decide, ?_⟩
  intro e h
  rw [show (eval 2 6 egDivZero stdEnv stdNS).1 =
      .error (.panic "attempt to divide by zero") from by decide] at h
  exact absurd h (by simp)

/-- C3, amended: for every binary `div`/`mod` expression whose operands
evaluate to Numbers with a zero right operand, evaluation terminates the
process with the corresponding Rust arithmetic panic instead of returning
a recoverable evaluation error. -/
theorem div_mod_by_zero_panics (f exp h op x y lx ly : Nat) (a : Int)
    (cells cells1 cells2 : CellStorage) (env env1 env2 : Env)
    (hop : op = stdNS.div ∨ op = stdNS.modu)
    (hexp : exp ≠ NIL_INDEX)
    (hv : (cells.get exp).val = CellType.Cons h)
    (hh : (cells.get h).val = CellType.Symbol op)
    (hbin : is_binary exp cells = true)
    (hsplit : split_binary exp cells = .ok (x, y))
    (he1 : eval f x cells env stdNS = (.ok lx, cells1, env1))
    (he2 : eval f y cells1 env1 stdNS = (.ok ly, cells2, env2))
    (ha : cells2.val_of lx = CellType.Number a)
    (hb : cells2.val_of ly = CellType.Number 0) :
    eval (f + 1) exp cells env stdNS =
      (.error (.panic (if op = stdNS.div then "attempt to divide by zero"
        else "attempt to calculate the remainder with a divisor of zero")),
       cells2, env2) := by
  have hatom : is_atom exp cells = false := by
    simp [is_atom, CellStorage.val_of, hv, hexp]
  have hh2 : cells.val_of h = CellType.Symbol op := hh
  simp only [eval] at he1 he2 ⊢
  rcases hop with hop | hop <;> subst hop <;>
    simp [evalF, hatom, hv, hh2, stdNS_add, stdNS_sub, stdNS_mul, stdNS_div,
      stdNS_modu, stdNS_cons, stdNS_hd, stdNS_tl, stdNS_quote,
      eval_arithmetic_go, hbin, hsplit, he1, he2, ha, hb, rustDiv, rustRem]

/-- Witness for `div_mod_by_zero_panics`: `(div 1 0)`. -/
theorem div_mod_by_zero_panics_witness :
    eval 2 6 egDivZero stdEnv stdNS =
      (.error (.panic (if 3 = stdNS.div then "attempt to divide by zero"
        else "attempt to calculate the remainder with a divisor of zero")),
       egDivZero, stdEnv) :=
  div_mod_by_zero_panics 1 6 1 3 2 3 2 3 1 egDivZero egDivZero egDivZero stdEnv stdEnv
    stdEnv (by decide) (by decide) (by decide) (by decide) (by decide) (by decide)
    (by decide) (by decide) (by decide) (by decide)

/-! ## C5 — arity mismatch fails before operand evaluation -/

/-- C5: an operator expression whose operand list does not match the
operator's arity class fails with `NonUnary` (for quote/hd/tl) or
`NonBinary` (for cons and the arithmetic operators) with the arena and the
symbol table returned exactly as they were — no operand has been
evaluated and no side effect has happened. -/
theorem arity_mismatch_no_side_effects (f exp h op : Nat) (cells : CellStorage)
    (env : Env)
    (hexp : exp ≠ NIL_INDEX)
    (hv : (cells.get exp).val = CellType.Cons h)
    (hh : (cells.get h).val = CellType.Symbol op) :
    ((op = stdNS.quote ∨ op = stdNS.hd ∨ op = stdNS.tl) →
      is_unary exp cells = false →
      eval (f + 1) exp cells env stdNS = (.error (.evalErr .NonUnary), cells, env)) ∧
    ((op = stdNS.cons ∨ op = stdNS.add ∨ op = stdNS.sub ∨ op = stdNS.mul ∨
        op = stdNS.div ∨ op = stdNS.modu) →
      is_binary exp cells = false →
      eval (f + 1) exp cells env stdNS = (.error (.evalErr .NonBinary), cells, env)) := by
  have hatom : is_atom exp cells = false := by
    simp [is_atom, CellStorage.val_of, hv, hexp]
  constructor
  · intro hop hun
    rcases hop with hop | hop | hop <;> subst hop <;>
      simp [eval, evalF, hatom, hv, hh, CellStorage.val_of, stdNS_eq, hun]
  · intro hop hbin
    rcases hop with hop | hop | hop | hop | hop | hop <;> subst hop <;>
      simp [eval, evalF, hatom, hv, hh, CellStorage.val_of, stdNS_eq,
        eval_cons_go, eval_arithmetic_go, hbin]

/-- Witness for `arity_mismatch_no_side_effects`: a two-operand quote
fails `NonUnary` and `(add 1)` fails `NonBinary`, both leaving the arena
untouched. -/
theorem arity_mismatch_no_side_effects_witness :
    eval 1 6 egQuoteTwo stdEnv stdNS =
      (.error (.evalErr .NonUnary), egQuoteTwo, stdEnv) ∧
    eval 1 4 egAddOne stdEnv stdNS =
      (.error (.evalErr .NonBinary), egAddOne, stdEnv) :=
  ⟨(arity_mismatch_no_side_effects 0 6 1 8 egQuoteTwo stdEnv (by decide) (by decide)
      (by decide)).1 (by decide) (by decide),
   (arity_mismatch_no_side_effects 0 4 1 0 egAddOne stdEnv (by decide) (by decide)
      (by decide)).2 (by decide) (by decide)⟩

/-! ## C6 — hd / tl behaviour -/

/-- C6: a unary `hd`/`tl` expression first evaluates its operand: an
operand error propagates unchanged; a non-`Pair` result fails with
`NotCons` carrying the whole offending expression; a `Pair` result yields
its head index for `hd` and its tail index for `tl`. -/
theorem hd_tl_evaluates_operand (f exp h op a : Nat) (cells : CellStorage) (env : Env)
    (hop : op = stdNS.hd ∨ op = stdNS.tl)
    (hexp : exp ≠ NIL_INDEX)
    (hv : (cells.get exp).val = CellType.Cons h)
    (hh : (cells.get h).val = CellType.Symbol op)
    (hun : is_unary exp cells = true)
    (hopd : carE (cdrM exp cells) cells = .ok a) :
    (∀ e cells1 env1, eval f a cells env stdNS = (.error e, cells1, env1) →
      eval (f + 1) exp cells env stdNS = (.error e, cells1, env1)) ∧
    (∀ res cells1 env1, eval f a cells env stdNS = (.ok res, cells1, env1) →
      (is_cons res cells1 = false →
        eval (f + 1) exp cells env stdNS =
          (.error (.evalErr (.NotCons exp)), cells1, env1)) ∧
      (∀ rh, (cells1.get res).val = CellType.Cons rh →
        eval (f + 1) exp cells env stdNS =
          (if op = stdNS.hd then (.ok rh, cells1, env1)
           else (.ok ((cells1.get res).tail), cells1, env1)))) := by
  have hatom : is_atom exp cells = false := by
    simp [is_atom, CellStorage.val_of, hv, hexp]
  have hh2 : cells.val_of h = CellType.Symbol op := hh
  constructor
  · intro e cells1 env1 he
    simp only [eval] at he ⊢
    rcases hop with hop | hop <;> subst hop <;>
      simp [evalF, hatom, hv, hh2, stdNS_hd, stdNS_tl, stdNS_quote, stdNS_cons,
        stdNS_add, stdNS_sub, stdNS_mul, stdNS_div, stdNS_modu, hun, hopd, he]
  · intro res cells1 env1 he
    constructor
    · intro hnc
      simp only [eval] at he ⊢
      rcases hop with hop | hop <;> subst hop <;>
        simp [evalF, hatom, hv, hh2, stdNS_hd, stdNS_tl, stdNS_quote, stdNS_cons,
          stdNS_add, stdNS_sub, stdNS_mul, stdNS_div, stdNS_modu, hun, hopd, he, hnc]
    · intro rh hrh
      have hic : is_cons res cells1 = true := by
        simp [is_cons, CellStorage.val_of, hrh]
      have hcar : carE res cells1 = .ok rh := by
        simp [carE, CellStorage.val_of, hrh]
      have hcdr : cdrM res cells1 = (cells1.get res).tail := by
        simp [cdrM, CellStorage.val_of, hrh, CellStorage.tail_of]
      simp only [eval] at he ⊢
      rcases hop with hop | hop <;> subst hop <;>
        simp [evalF, hatom, hv, hh2, stdNS_hd, stdNS_tl, stdNS_quote, stdNS_cons,
          stdNS_add, stdNS_sub, stdNS_mul, stdNS_div, stdNS_modu, hun, hopd, he, hic,
          hcar, hcdr]

/-- Witness for `hd_tl_evaluates_operand`: `(hd (cons 1 2))` evaluates to
the head cell of the fresh pair (the cell holding 1), and `(hd 5)` fails
`NotCons` carrying the whole expression. -/
theorem hd_tl_evaluates_operand_witness :
    eval 3 9 egHdCons stdEnv stdNS = (.ok 3, egHdConsAfter, stdEnv) ∧
    eval 2 4 egHdFive stdEnv stdNS =
      (.error (.evalErr (.NotCons 4)), egHdFive, stdEnv) := by
  constructor
  · have h2 := ((hd_tl_evaluates_operand 2 9 1 6 7 egHdCons stdEnv (by decide) (by decide)
      (by decide) (by decide) (by decide) (by decide)).2 10 egHdConsAfter stdEnv
        (by decide)).2 3 (by decide)
    simpa using h2
  · exact ((hd_tl_evaluates_operand 1 4 1 6 2 egHdFive stdEnv (by decide) (by decide)
      (by decide) (by decide) (by decide) (by decide)).2 2 egHdFive stdEnv
        (by decide)).1 (by decide)

/-! ## C8 — arithmetic semantics -/

/-- C8, counterexample: `(div -2147483648 -1)` has Number operands and a
non-zero right operand, yet does not produce a freshly allocated Number —
Rust integer division aborts the process on this overflowing case. -/
theorem div_overflow_aborts :
    eval 2 6 egDivOverflow stdEnv stdNS =
      (.error (.panic "attempt to divide with overflow"), egDivOverflow, stdEnv) ∧
    ∀ r : Nat, (eval 2 6 egDivOverflow stdEnv stdNS).1 ≠ .ok r := by
  refine ⟨by decide, ?_⟩
  intro r h
  rw [show (eval 2 6 egDivOverflow stdEnv stdNS).1 =
      .error (.panic "attempt to divide with overflow") from by decide] at h
  exact absurd h (by simp)

/-- C8, amended: a binary arithmetic expression whose operands evaluate to
Numbers `a` and `b` (with, for `div`/`mod`, `b` non-zero and `(a, b)` not
the overflowing pair `(i32::MIN, -1)`, and with a free cell available for
the result) evaluates to a freshly allocated `Number` cell — the head of
the free list — holding the wrapping sum/difference/product, the
truncating quotient, or the remainder matching that quotient. -/
theorem arithmetic_wrapping_result (f exp h op x y lx ly : Nat) (a b : Int)
    (cells cells1 cells2 : CellStorage) (env env1 env2 : Env)
    (hop : op = stdNS.add ∨ op = stdNS.sub ∨ op = stdNS.mul ∨ op = stdNS.div ∨
      op = stdNS.modu)
    (hexp : exp ≠ NIL_INDEX)
    (hv : (cells.get exp).val = CellType.Cons h)
    (hh : (cells.get h).val = CellType.Symbol op)
    (hbin : is_binary exp cells = true)
    (hsplit : split_binary exp cells = .ok (x, y))
    (he1 : eval f x cells env stdNS = (.ok lx, cells1, env1))
    (he2 : eval f y cells1 env1 stdNS = (.ok ly, cells2, env2))
    (ha : cells2.val_of lx = CellType.Number a)
    (hb : cells2.val_of ly = CellType.Number b)
    (hzero : (op = stdNS.div ∨ op = stdNS.modu) → b ≠ 0 ∧ ¬(a = i32Min ∧ b = -1))
    (halloc : cells2.free_index ≠ NIL_INDEX) :
    eval (f + 1) exp cells env stdNS =
      (.ok cells2.free_index,
       ⟨cells2.tail_of cells2.free_index,
        cells2.cells.set cells2.free_index ⟨CellType.Number (arith_result op a b), NIL_INDEX⟩⟩,
       env2) := by
  have hatom : is_atom exp cells = false := by
    simp [is_atom, CellStorage.val_of, hv, hexp]
  have hh2 : cells.val_of h = CellType.Symbol op := hh
  simp only [eval] at he1 he2 ⊢
  rcases hop with hop | hop | hop | hop | hop
  · subst hop
    simp [evalF, hatom, hv, hh2, stdNS_add, stdNS_sub, stdNS_mul, stdNS_div,
      stdNS_modu, stdNS_cons, stdNS_hd, stdNS_tl, stdNS_quote, eval_arithmetic_go,
      hbin, hsplit, he1, he2, ha, hb, arith_result, CellStorage.alloc_cell, halloc]
  · subst hop
    simp [evalF, hatom, hv, hh2, stdNS_add, stdNS_sub, stdNS_mul, stdNS_div,
      stdNS_modu, stdNS_cons, stdNS_hd, stdNS_tl, stdNS_quote, eval_arithmetic_go,
      hbin, hsplit, he1, he2, ha, hb, arith_result, CellStorage.alloc_cell, halloc]
  · subst hop
    simp [evalF, hatom, hv, hh2, stdNS_add, stdNS_sub, stdNS_mul, stdNS_div,
      stdNS_modu, stdNS_cons, stdNS_hd, stdNS_tl, stdNS_quote, eval_arithmetic_go,
      hbin, hsplit, he1, he2, ha, hb, arith_result, CellStorage.alloc_cell, halloc]
  · subst hop
    obtain ⟨hz, hov⟩ := hzero (Or.inl rfl)
    simp [evalF, hatom, hv, hh2, stdNS_add, stdNS_sub, stdNS_mul, stdNS_div,
      stdNS_modu, stdNS_cons, stdNS_hd, stdNS_tl, stdNS_quote, eval_arithmetic_go,
      hbin, hsplit, he1, he2, ha, hb, arith_result, CellStorage.alloc_cell, halloc,
      rustDiv, hz, hov]
  · subst hop
    obtain ⟨hz, hov⟩ := hzero (Or.inr rfl)
    simp [evalF, hatom, hv, hh2, stdNS_add, stdNS_sub, stdNS_mul, stdNS_div,
      stdNS_modu, stdNS_cons, stdNS_hd, stdNS_tl, stdNS_quote, eval_arithmetic_go,
      hbin, hsplit, he1, he2, ha, hb, arith_result, CellStorage.alloc_cell, halloc,
      rustRem, hz, hov]

/-- Witness for `arithmetic_wrapping_result`: `(add 2 3)` evaluates to a
fresh Number cell holding 5. -/
theorem arithmetic_wrapping_result_witness :
    eval 2 6 egAddTwoThree stdEnv stdNS =
      (.ok egAddTwoThree.free_index,
       ⟨egAddTwoThree.tail_of egAddTwoThree.free_index,
        egAddTwoThree.cells.set egAddTwoThree.free_index
          ⟨CellType.Number (arith_result 0 2 3), NIL_INDEX⟩⟩,
       stdEnv) :=
  arithmetic_wrapping_result 1 6 1 0 2 3 2 3 2 3 egAddTwoThree egAddTwoThree
    egAddTwoThree stdEnv stdEnv stdEnv (by decide) (by decide) (by decide) (by decide)
    (by decide) (by decide) (by decide) (by decide) (by decide) (by decide)
    (fun hc => absurd hc (by decide)) (by decide)

/-! ## C9 — the quote operator is bound to the tick, not to "quote" -/

/-- C9: at startup the quote behaviour is bound to the one-character
symbol name `'` (code point 39, symbol index 8); the name `quote` is not
interned at startup, so interning it yields the fresh index 9, and an
expression headed by that symbol fails with `UnknownOperator 9`, while a
tick-headed unary expression dispatches to the quote behaviour and returns
its operand. -/
theorem quote_operator_is_tick :
    stdNS.quote = 8 ∧
    stdEnv.symbols.getD 8 [] = [39] ∧
    (stdEnv.add_sym (strName "quote")).1 = 9 ∧
    (stdEnv.add_sym (strName "quote")).2.symbols.getD 9 [] = strName "quote" ∧
    (∀ f exp h cells env, exp ≠ NIL_INDEX →
      (cells.get exp).val = CellType.Cons h →
      (cells.get h).val = CellType.Symbol 9 →
      eval (f + 1) exp cells env stdNS =
        (.error (.evalErr (.UnknownOperator 9)), cells, env)) ∧
    (∀ f exp h i2 opd cells env, exp ≠ NIL_INDEX →
      (cells.get exp).val = CellType.Cons h →
      (cells.get h).val = CellType.Symbol stdNS.quote →
      (cells.get exp).tail = i2 →
      (cells.get i2).val = CellType.Cons opd →
      (cells.get i2).tail = NIL_INDEX →
      eval (f + 1) exp cells env stdNS = (.ok opd, cells, env)) := by
  refine ⟨by decide, by decide, by decide, by decide, ?_, ?_⟩
  · intro f exp h cells env hexp hv hh
    have hatom : is_atom exp cells = false := by
      simp [is_atom, CellStorage.val_of, hv, hexp]
    have hh2 : cells.val_of h = CellType.Symbol 9 := hh
    simp [eval, evalF, hatom, hv, hh2, stdNS_add, stdNS_sub, stdNS_mul, stdNS_div,
      stdNS_modu, stdNS_cons, stdNS_hd, stdNS_tl, stdNS_quote]
  · intro f exp h i2 opd cells env hexp hv hh ht hc hn
    have hatom : is_atom exp cells = false := by
      simp [is_atom, CellStorage.val_of, hv, hexp]
    have hun : is_unary exp cells = true := by
      simp [is_unary, is_cons, cdrM, CellStorage.val_of, CellStorage.tail_of, hv, ht,
        hc, hn]
    simp [eval, evalF, hatom, hv, hh, hun, carE, cdrM, CellStorage.val_of,
      CellStorage.tail_of, ht, hc]

/-- Witness for `quote_operator_is_tick`: `(quote 1)` (head symbol index
9) fails `UnknownOperator 9`, while `('  5)` returns its operand cell. -/
theorem quote_operator_is_tick_witness :
    eval 1 4 egQuoteSpelled stdEnv stdNS =
      (.error (.evalErr (.UnknownOperator 9)), egQuoteSpelled, stdEnv) ∧
    eval 1 4 egQuoteFive stdEnv stdNS = (.ok 2, egQuoteFive, stdEnv) :=
  ⟨quote_operator_is_tick.2.2.2.2.1 0 4 1 egQuoteSpelled stdEnv (by decide) (by decide)
      (by decide),
   quote_operator_is_tick.2.2.2.2.2 0 4 1 3 2 egQuoteFive stdEnv (by decide) (by decide)
      (by decide) (by decide) (by decide) (by decide)⟩

/-! ## C7 — print/parse round trip -/

/-- C7, counterexample: the input consisting of the single byte 181 (µ)
parses successfully to a symbol, but its canonical printed text is the
UTF-8 pair `[194, 181]`, which re-parses to a *different* symbol (the
lexer reads bytes, not UTF-8): the round-tripped tree is not structurally
equal to the original. -/
theorem roundtrip_fails_on_nonascii :
    parse_sexp 4 [181] (init_storage 8) stdEnv = .ok (some 1, cexSt1, cexEnv1, []) ∧
    print_exp 2 cexSt1 cexEnv1 1 = [194, 181] ∧
    parse_sexp 4 [194, 181] cexSt1 cexEnv1 = .ok (some 2, cexSt2, cexEnv2, []) ∧
    readT 2 cexSt1 1 = some (SExp.sym 9) ∧
    readT 2 cexSt2 2 = some (SExp.sym 10) ∧
    cexEnv1.symbols.getD 9 [] = [181] ∧
    cexEnv2.symbols.getD 10 [] = [194, 181] ∧
    (SExp.sym 9 : SExp) ≠ SExp.sym 10 := by
  exact ⟨by decide, by decide, by decide, by decide, by decide, by decide, by decide,
    by decide⟩

/-! ### Lexer lemmas -/

theorem consume_while_spec (test : Nat → Bool) (l r : List Nat)
    (hl : ∀ c ∈ l, test c = true)
    (hr : ∀ c, r.head? = some c → test c = false) :
    consume_while test (l ++ r) = (l, r) := by
  induction l with
  | nil =>
    cases r with
    | nil => rfl
    | cons c rest => simp [consume_while, hr c rfl]
  | cons c l ih =>
    have hc := hl c (by simp)
    have ih2 := ih (fun x hx => hl x (by simp [hx]))
    simp [consume_while, hc, ih2]

theorem consume_whitespace_not_ws (c : Nat) (l : List Nat)
    (h : is_whitespace c = false) :
    consume_whitespace (c :: l) = c :: l := by
  simp [consume_whitespace, consume_while, h]

theorem consume_whitespace_ws (c : Nat) (l : List Nat)
    (h : is_whitespace c = true) :
    consume_whitespace (c :: l) = consume_whitespace l := by
  simp [consume_whitespace, consume_while, h]

theorem next_token_lparen (r : List Nat) :
    next_token (40 :: r) = .ok (some Token.LeftParen, r) := by
  rw [next_token, consume_whitespace_not_ws 40 r (by decide)]
  simp

theorem next_token_rparen (r : List Nat) :
    next_token (41 :: r) = .ok (some Token.RightParen, r) := by
  rw [next_token, consume_whitespace_not_ws 41 r (by decide)]
  simp

theorem next_token_dot (r : List Nat) :
    next_token (46 :: r) = .ok (some Token.Dot, r) := by
  rw [next_token, consume_whitespace_not_ws 46 r (by decide)]
  simp

theorem next_token_tick (r : List Nat) :
    next_token (39 :: r) = .ok (some (Token.Symbol [39]), r) := by
  rw [next_token, consume_whitespace_not_ws 39 r (by decide)]
  simp

theorem next_token_space (l : List Nat) :
    next_token (32 :: l) = next_token l := by
  rw [next_token, next_token, consume_whitespace_ws 32 l (by decide)]

theorem digit_not_special (c : Nat) (h : is_digit10 c = true) :
    is_whitespace c = false ∧ c ≠ 40 ∧ c ≠ 41 ∧ c ≠ 46 ∧ c ≠ 39 := by
  simp only [is_digit10, Bool.and_eq_true, decide_eq_true_eq] at h
  simp only [is_whitespace]
  refine ⟨?_, by omega, by omega, by omega, by omega⟩
  simp only [Bool.or_eq_false_iff, beq_eq_false_iff_ne, ne_eq]
  omega

theorem alnum_not_special (c : Nat) (h : is_alphanumeric c = true) :
    is_whitespace c = false ∧ c ≠ 40 ∧ c ≠ 41 ∧ c ≠ 46 ∧ c ≠ 39 := by
  simp only [is_alphanumeric, is_digit10, Bool.or_eq_true, Bool.and_eq_true,
    decide_eq_true_eq, beq_iff_eq] at h
  simp only [is_whitespace]
  constructor
  · simp only [Bool.or_eq_false_iff, beq_eq_false_iff_ne, ne_eq]
    omega
  · omega

theorem next_token_number (ds r : List Nat) (hne : ds ≠ [])
    (hds : ∀ c ∈ ds, is_digit10 c = true)
    (hr : ∀ c, r.head? = some c → is_digit10 c = false) :
    next_token (ds ++ r) = .ok (some (Token.Number ds), r) := by
  obtain ⟨d, ds2, rfl⟩ := List.exists_cons_of_ne_nil hne
  have hd := hds d (by simp)
  obtain ⟨hws, h40, h41, h46, h39⟩ := digit_not_special d hd
  have hcw : consume_while is_digit10 (d :: (ds2 ++ r)) = (d :: ds2, r) :=
    consume_while_spec is_digit10 (d :: ds2) r hds hr
  rw [List.cons_append, next_token, consume_whitespace_not_ws _ _ hws]
  simp [h40, h41, h46, h39, hd, hcw]

theorem next_token_symbol (nm r : List Nat) (hne : nm ≠ [])
    (hnm : ∀ c ∈ nm, is_alphanumeric c = true)
    (hd : is_digit10 (nm.headD 0) = false)
    (hr : ∀ c, r.head? = some c → is_alphanumeric c = false) :
    next_token (nm ++ r) = .ok (some (Token.Symbol nm), r) := by
  obtain ⟨d, nm2, rfl⟩ := List.exists_cons_of_ne_nil hne
  have hdal := hnm d (by simp)
  obtain ⟨hws, h40, h41, h46, h39⟩ := alnum_not_special d hdal
  have hdd : is_digit10 d = false := by simpa using hd
  have hcw : consume_while is_alphanumeric (d :: (nm2 ++ r)) = (d :: nm2, r) :=
    consume_while_spec is_alphanumeric (d :: nm2) r hnm hr
  rw [List.cons_append, next_token, consume_whitespace_not_ws _ _ hws]
  simp [h40, h41, h46, h39, hdd, hdal, hcw]

/-! ### Storage access lemmas -/

theorem get_mk (fi : Nat) (cs : List Cell) (j : Nat) :
    (CellStorage.mk fi cs).get j = cs.getD j Cell.empty := rfl

theorem get_set_self (fi : Nat) (cs : List Cell) (i : Nat) (c : Cell)
    (h : i < cs.length) :
    (CellStorage.mk fi (cs.set i c)).get i = c := by
  rw [get_mk, List.getD_eq_getD_get?, List.get?_eq_getElem?,
    List.getElem?_set_eq_of_lt c h]
  rfl

theorem get_set_ne (fi fi2 : Nat) (cs : List Cell) (i j : Nat) (c : Cell)
    (h : i ≠ j) :
    (CellStorage.mk fi (cs.set i c)).get j = (CellStorage.mk fi2 cs).get j := by
  rw [get_mk, get_mk, List.getD_eq_getD_get?, List.getD_eq_getD_get?,
    List.get?_eq_getElem?, List.get?_eq_getElem?, List.getElem?_set_ne h]

/-! ### TreeAt lemmas -/

theorem TreeAt_not_free (s : CellStorage) (i : Nat) (t : SExp) (C : List Nat)
    (h : TreeAt s i t C) : ∀ x ∈ C, (s.get x).val ≠ CellType.Free := by
  induction h with
  | nil => intro x hx; simp at hx
  | num hi hv =>
    intro x hx
    simp at hx
    subst hx
    simp [hv]
  | sym hi hv =>
    intro x hx
    simp at hx
    subst hx
    simp [hv]
  | cons hi hv ha hb iha ihb =>
    intro x hx
    simp at hx
    rcases hx with hx | hx | hx
    · subst hx; simp [hv]
    · exact iha x hx
    · exact ihb x hx

theorem TreeAt_congr : ∀ (t : SExp) (s s2 : CellStorage) (i : Nat) (C : List Nat),
    TreeAt s i t C → (∀ x ∈ C, s2.get x = s.get x) → TreeAt s2 i t C := by
  intro t
  induction t with
  | nil =>
    intro s s2 i C h hsame
    cases h
    exact TreeAt.nil
  | num n =>
    intro s s2 i C h hsame
    cases h with
    | num hi hv => exact TreeAt.num hi (by rw [hsame i (by simp)]; exact hv)
  | sym k =>
    intro s s2 i C h hsame
    cases h with
    | sym hi hv => exact TreeAt.sym hi (by rw [hsame i (by simp)]; exact hv)
  | cons a b iha ihb =>
    intro s s2 i C h hsame
    cases h with
    | cons hi hv ha hb =>
      have hgi : s2.get i = s.get i := hsame i (by simp)
      refine TreeAt.cons hi (by rw [hgi]; exact hv)
        (iha _ _ _ _ ha (fun x hx => hsame x (by simp [hx]))) ?_
      rw [hgi]
      exact ihb _ _ _ _ hb (fun x hx => hsame x (by simp [hx]))

theorem TreeAt_length (s : CellStorage) (i : Nat) (t : SExp) (C : List Nat)
    (h : TreeAt s i t C) : C.length = cellCount t := by
  induction h with
  | nil => rfl
  | num hi hv => rfl
  | sym hi hv => rfl
  | cons hi hv ha hb iha ihb =>
    simp [cellCount, iha, ihb]
    omega

theorem TreeAt_nil_inv (s : CellStorage) (i : Nat) (C : List Nat)
    (h : TreeAt s i SExp.nil C) : i = NIL_INDEX ∧ C = [] := by
  cases h
  exact ⟨rfl, rfl⟩

/-! ### Free-chain lemmas -/

theorem freeChainB_cons_iff (s : CellStorage) (j : Nat) (l : List Nat) (i : Nat) :
    freeChainB s (j :: l) i = true ↔
      i = j ∧ 0 < j ∧ j < s.cells.length ∧ s.val_of j = CellType.Free ∧
        freeChainB s l (s.tail_of j) = true := by
  simp [freeChainB, and_assoc]

theorem freeChainB_congr (s s2 : CellStorage) (l : List Nat)
    (hlen : s2.cells.length = s.cells.length)
    (hsame : ∀ x ∈ l, s2.get x = s.get x) :
    ∀ i, freeChainB s l i = true → freeChainB s2 l i = true := by
  induction l with
  | nil => intro i h; simpa [freeChainB] using h
  | cons j l ih =>
    intro i h
    rw [freeChainB_cons_iff] at h
    obtain ⟨hij, hj, hlt, hv, hrest⟩ := h
    subst hij
    have hgj : s2.get i = s.get i := hsame i (by simp)
    rw [freeChainB_cons_iff]
    refine ⟨rfl, hj, by omega, ?_, ?_⟩
    · simpa [CellStorage.val_of, hgj] using hv
    · have ht : s2.tail_of i = s.tail_of i := by simp [CellStorage.tail_of, hgj]
      rw [ht]
      exact ih (fun x hx => hsame x (by simp [hx])) _ hrest

theorem alloc_of_chain (s : CellStorage) (v : CellType) (j : Nat) (l : List Nat)
    (hch : freeChainB s (j :: l) s.free_index = true) :
    s.alloc_cell v =
      .ok (j, CellStorage.mk (s.tail_of j) (s.cells.set j ⟨v, NIL_INDEX⟩)) := by
  rw [freeChainB_cons_iff] at hch
  obtain ⟨hfi, hj, hlt, hv, hrest⟩ := hch
  rw [CellStorage.alloc_cell]
  rw [if_neg (by simp [hfi, NIL_INDEX]; omega)]
  simp [hfi]

theorem chain_after_alloc (s : CellStorage) (j : Nat) (l : List Nat) (c : Cell)
    (hch : freeChainB s (j :: l) s.free_index = true)
    (hnd : (j :: l).Nodup) (fi : Nat) :
    freeChainB (CellStorage.mk fi (s.cells.set j c)) l (s.tail_of j) = true := by
  rw [freeChainB_cons_iff] at hch
  obtain ⟨hfi, hj, hlt, hv, hrest⟩ := hch
  have hnotmem : j ∉ l := (List.nodup_cons.mp hnd).1
  refine freeChainB_congr s _ l (by simp) ?_ _ hrest
  intro x hx
  exact get_set_ne fi s.free_index s.cells j x c (fun h => hnotmem (h ▸ hx))

/-! ### Symbol-table lemmas -/

theorem nodup_findIdx (l : List (List Nat)) (k : Nat) (name : List Nat)
    (hnd : l.Nodup) (hk : l.get? k = some name) :
    l.findIdx? (fun s => s == name) = some k := by
  induction l generalizing k with
  | nil => simp at hk
  | cons a l ih =>
    rw [List.findIdx?_cons]
    cases k with
    | zero =>
      simp only [List.get?_cons_zero, Option.some_inj] at hk
      subst hk
      simp
    | succ k =>
      simp only [List.get?_cons_succ] at hk
      have hmem : name ∈ l := List.get?_mem hk
      have hne : ¬(a == name) = true := by
        simp only [beq_iff_eq]
        intro h
        exact (List.nodup_cons.mp hnd).1 (h ▸ hmem)
      rw [if_neg hne, List.findIdx?_succ, ih k (List.nodup_cons.mp hnd).2 hk]
      rfl

theorem add_sym_found (env : Env) (name : List Nat) (k : Nat)
    (hnd : env.symbols.Nodup) (hk : env.symbols.get? k = some name) :
    env.add_sym name = (k, env) := by
  simp [Env.add_sym, nodup_findIdx env.symbols k name hnd hk]

theorem add_sym_spec (env : Env) (name : List Nat) :
    (∃ d, (env.add_sym name).2.symbols = env.symbols ++ d) ∧
    (env.add_sym name).2.symbols.get? (env.add_sym name).1 = some name ∧
    (env.symbols.Nodup → (env.add_sym name).2.symbols.Nodup) := by
  rw [Env.add_sym]
  cases hf : env.symbols.findIdx? (fun s => s == name) with
  | some i =>
    obtain ⟨hlt, hp, -⟩ := (List.findIdx?_eq_some_iff_getElem).mp hf
    refine ⟨⟨[], by simp⟩, ?_, fun h => h⟩
    simp only []
    rw [List.get?_eq_getElem?, List.getElem?_eq_getElem hlt]
    simpa [beq_iff_eq] using congrArg some (beq_iff_eq.mp hp)
  | none =>
    have hni : name ∉ env.symbols := by
      intro hmem
      have := List.findIdx?_eq_none_iff.mp hf name hmem
      simp at this
    refine ⟨⟨[name], rfl⟩, ?_, fun h => ?_⟩
    · simp only []
      rw [List.get?_eq_getElem?]
      simp
    · simp [List.nodup_append, h, hni]

theorem get?_append_prefix (l d : List (List Nat)) (k : Nat) (x : List Nat)
    (h : l.get? k = some x) : (l ++ d).get? k = some x := by
  have hlt : k < l.length := by
    by_contra hge
    rw [List.get?_eq_none.mpr (by omega)] at h
    simp at h
  rw [List.get?_append hlt]
  exact h

theorem WfSExp_mono (env env2 : Env) (t : SExp) (d : List (List Nat))
    (h2 : env2.symbols = env.symbols ++ d) (h : WfSExp env t = true) :
    WfSExp env2 t = true := by
  induction t with
  | nil => rfl
  | num n => simpa [WfSExp] using h
  | sym k =>
    simp only [WfSExp] at h ⊢
    cases hk : env.symbols.get? k with
    | none => rw [hk] at h; simp at h
    | some name =>
      rw [hk] at h
      rw [h2, get?_append_prefix _ _ _ _ hk]
      exact h
  | cons a b iha ihb =>
    simp only [WfSExp, Bool.and_eq_true] at h ⊢
    exact ⟨iha h.1, ihb h.2⟩

/-! ### Decimal printing lemmas -/

theorem digitsToNat_append_one (l : List Nat) (d : Nat) :
    digitsToNat (l ++ [d]) = digitsToNat l * 10 + (d - 48) := by
  simp [digitsToNat, List.foldl_append]

theorem nat_decimal_go_spec (f : Nat) :
    ∀ n, n + 1 ≤ f →
      nat_decimal_go f n ≠ [] ∧ (∀ c ∈ nat_decimal_go f n, is_digit10 c = true) ∧
        digitsToNat (nat_decimal_go f n) = n := by
  induction f with
  | zero => intro n h; omega
  | succ f ih =>
    intro n h
    by_cases h10 : n < 10
    · refine ⟨by simp [nat_decimal_go, h10], ?_, ?_⟩
      · intro c hc
        simp [nat_decimal_go, h10] at hc
        subst hc
        simp [is_digit10]
        omega
      · simp [nat_decimal_go, h10, digitsToNat]
    · have hdlt : n / 10 < n := Nat.div_lt_self (by omega) (by omega)
      obtain ⟨hne, hdig, hval⟩ := ih (n / 10) (by omega)
      rw [nat_decimal_go, if_neg h10]
      refine ⟨by simp, ?_, ?_⟩
      · intro c hc
        rw [List.mem_append] at hc
        rcases hc with hc | hc
        · exact hdig c hc
        · simp at hc
          subst hc
          simp [is_digit10]
          omega
      · rw [digitsToNat_append_one, hval]
        omega

theorem nat_decimal_spec (n : Nat) :
    nat_decimal n ≠ [] ∧ (∀ c ∈ nat_decimal n, is_digit10 c = true) ∧
      digitsToNat (nat_decimal n) = n :=
  nat_decimal_go_spec (n + 1) n (by omega)

theorem int_decimal_nonneg (n : Int) (h : 0 ≤ n) :
    int_decimal n = nat_decimal n.toNat := by
  simp [int_decimal, not_lt.mpr h]

theorem utf8encode_ascii (name : List Nat) (h : ∀ c ∈ name, c < 128) :
    utf8encode name = name := by
  induction name with
  | nil => rfl
  | cons c l ih =>
    have hc : c < 128 := h c (by simp)
    have ih2 := ih (fun x hx => h x (by simp [hx]))
    simp only [utf8encode, List.map_cons, List.flatten_cons, if_pos hc] at ih2 ⊢
    simp [ih2]

theorem tokenName_cases (name : List Nat) (h : tokenName name = true) :
    name = [39] ∨
      (name ≠ [] ∧ (∀ c ∈ name, is_alphanumeric c = true ∧ c < 128) ∧
        is_digit10 (name.headD 0) = false) := by
  simp only [tokenName, Bool.or_eq_true, beq_iff_eq, Bool.and_eq_true,
    Bool.not_eq_true', beq_eq_false_iff_ne, ne_eq, List.all_eq_true,
    decide_eq_true_eq] at h
  rcases h with h | ⟨⟨hne, hall⟩, hhd⟩
  · exact Or.inl h
  · exact Or.inr ⟨hne, fun c hc => (hall c hc).imp id id, hhd⟩

theorem tokenName_ascii (name : List Nat) (h : tokenName name = true) :
    ∀ c ∈ name, c < 128 := by
  rcases tokenName_cases name h with rfl | ⟨-, hall, -⟩
  · intro c hc; simp at hc; omega
  · exact fun c hc => (hall c hc).2

/-! ### Token membership and shape lemmas -/

theorem consume_while_cons (test : Nat → Bool) (a : Nat) (l : List Nat) :
    consume_while test (a :: l) =
      if test a then (a :: (consume_while test l).1, (consume_while test l).2)
      else ([], a :: l) := by
  rcases hp : consume_while test l with ⟨r1, r2⟩
  by_cases h : test a = true <;> simp [consume_while, h, hp]

theorem consume_while_sublists (test : Nat → Bool) (l : List Nat) :
    (∀ c ∈ (consume_while test l).1, c ∈ l) ∧
    (∀ c ∈ (consume_while test l).2, c ∈ l) := by
  induction l with
  | nil => simp [consume_while]
  | cons a l ih =>
    by_cases ha : test a = true
    · rw [consume_while_cons, if_pos ha]
      refine ⟨?_, ?_⟩
      · intro c hc
        simp only [List.mem_cons] at hc ⊢
        rcases hc with rfl | hc
        · exact Or.inl rfl
        · exact Or.inr (ih.1 c hc)
      · intro c hc
        exact List.mem_cons_of_mem a (ih.2 c hc)
    · rw [consume_while_cons, if_neg ha]
      exact ⟨by intro c hc; simp at hc, fun c hc => hc⟩

theorem consume_while_all (test : Nat → Bool) (l : List Nat) :
    ∀ c ∈ (consume_while test l).1, test c = true := by
  induction l with
  | nil => simp [consume_while]
  | cons a l ih =>
    by_cases ha : test a = true
    · rw [consume_while_cons, if_pos ha]
      intro c hc
      simp only [List.mem_cons] at hc
      rcases hc with rfl | hc
      · exact ha
      · exact ih c hc
    · rw [consume_while_cons, if_neg ha]
      intro c hc
      simp at hc

theorem consume_while_head (test : Nat → Bool) (c : Nat) (l : List Nat)
    (h : test c = true) :
    (consume_while test (c :: l)).1 = c :: (consume_while test l).1 := by
  rw [consume_while_cons, if_pos h]

theorem next_token_cw_nil (l : List Nat) (hcw : consume_whitespace l = []) :
    next_token l = .ok (none, []) := by
  rw [next_token, hcw]

theorem next_token_cw_cons (l : List Nat) (c : Nat) (r : List Nat)
    (hcw : consume_whitespace l = c :: r) :
    next_token l =
      (if c = 40 then .ok (some Token.LeftParen, r)
       else if c = 41 then .ok (some Token.RightParen, r)
       else if c = 46 then .ok (some Token.Dot, r)
       else if c = 39 then .ok (some (Token.Symbol [39]), r)
       else if is_digit10 c then
         .ok (some (Token.Number (consume_while is_digit10 (c :: r)).1),
           (consume_while is_digit10 (c :: r)).2)
       else if is_alphanumeric c then
         .ok (some (Token.Symbol (consume_while is_alphanumeric (c :: r)).1),
           (consume_while is_alphanumeric (c :: r)).2)
       else .error (.panic "Syntax error")) := by
  rw [next_token, hcw]

/-- Every byte of the remaining input and of a produced token's text comes
from the original input. -/
theorem next_token_mem (l : List Nat) (tok : Option Token) (rest : List Nat)
    (h : next_token l = .ok (tok, rest)) :
    (∀ c ∈ rest, c ∈ l) ∧
    (∀ nm, (tok = some (Token.Symbol nm) ∨ tok = some (Token.Number nm)) →
      nm = [39] ∨ (∀ c ∈ nm, c ∈ l)) := by
  have hsubcw : ∀ c ∈ consume_whitespace l, c ∈ l :=
    (consume_while_sublists is_whitespace l).2
  rcases hcw : consume_whitespace l with - | ⟨c, r⟩
  · rw [next_token_cw_nil l hcw] at h
    cases h
    exact ⟨by simp, by intro nm hnm; rcases hnm with hnm | hnm <;> simp at hnm⟩
  · rw [next_token_cw_cons l c r hcw] at h
    have hsub : ∀ x ∈ c :: r, x ∈ l := fun x hx => hsubcw x (hcw ▸ hx)
    split_ifs at h with h40 h41 h46 h39 hdig halnum
    · cases h
      exact ⟨fun x hx => hsub x (by simp [hx]),
        by intro nm hnm; rcases hnm with hnm | hnm <;> simp at hnm⟩
    · cases h
      exact ⟨fun x hx => hsub x (by simp [hx]),
        by intro nm hnm; rcases hnm with hnm | hnm <;> simp at hnm⟩
    · cases h
      exact ⟨fun x hx => hsub x (by simp [hx]),
        by intro nm hnm; rcases hnm with hnm | hnm <;> simp at hnm⟩
    · cases h
      refine ⟨fun x hx => hsub x (by simp [hx]), ?_⟩
      intro nm hnm
      rcases hnm with hnm | hnm
      · simp at hnm; subst hnm; exact Or.inl rfl
      · simp at hnm
    · cases h
      have hsubs := consume_while_sublists is_digit10 (c :: r)
      refine ⟨fun x hx => hsub x (hsubs.2 x hx), ?_⟩
      intro nm hnm
      rcases hnm with hnm | hnm
      · simp at hnm
      · simp only [Option.some_inj, Token.Number.injEq] at hnm
        subst hnm
        exact Or.inr fun x hx => hsub x (hsubs.1 x hx)
    · cases h
      have hsubs := consume_while_sublists is_alphanumeric (c :: r)
      refine ⟨fun x hx => hsub x (hsubs.2 x hx), ?_⟩
      intro nm hnm
      rcases hnm with hnm | hnm
      · simp only [Option.some_inj, Token.Symbol.injEq] at hnm
        subst hnm
        exact Or.inr fun x hx => hsub x (hsubs.1 x hx)
      · simp at hnm

/-- The shape of a symbol token: the tick, or a non-empty alphanumeric run
that does not start with a digit. -/
theorem next_token_symbol_shape (l : List Nat) (nm rest : List Nat)
    (h : next_token l = .ok (some (Token.Symbol nm), rest)) :
    nm = [39] ∨
      (nm ≠ [] ∧ (∀ c ∈ nm, is_alphanumeric c = true) ∧
        is_digit10 (nm.headD 0) = false) := by
  rcases hcw : consume_whitespace l with - | ⟨c, r⟩
  · rw [next_token_cw_nil l hcw] at h
    cases h
  · rw [next_token_cw_cons l c r hcw] at h
    split_ifs at h with h40 h41 h46 h39 hdig halnum
    · cases h
    · cases h
    · cases h
    · cases h
      exact Or.inl rfl
    · cases h
    · cases h
      have hh : (consume_while is_alphanumeric (c :: r)).1 =
          c :: (consume_while is_alphanumeric r).1 :=
        consume_while_head is_alphanumeric c r halnum
      have hall := consume_while_all is_alphanumeric (c :: r)
      refine Or.inr ⟨?_, hall, ?_⟩
      · rw [hh]; simp
      · rw [hh]; simpa using hdig

/-- The shape of a number token: a non-empty run of decimal digits. -/
theorem next_token_number_shape (l : List Nat) (nm rest : List Nat)
    (h : next_token l = .ok (some (Token.Number nm), rest)) :
    nm ≠ [] ∧ (∀ c ∈ nm, is_digit10 c = true) := by
  rcases hcw : consume_whitespace l with - | ⟨c, r⟩
  · rw [next_token_cw_nil l hcw] at h
    cases h
  · rw [next_token_cw_cons l c r hcw] at h
    split_ifs at h with h40 h41 h46 h39 hdig halnum
    · cases h
    · cases h
    · cases h
    · cases h
    · cases h
      have hh : (consume_while is_digit10 (c :: r)).1 =
          c :: (consume_while is_digit10 r).1 :=
        consume_while_head is_digit10 c r hdig
      have hall := consume_while_all is_digit10 (c :: r)
      exact ⟨by rw [hh]; simp, hall⟩
    · cases h

theorem parse_i32_ok (str : List Nat) (n : Int) (h : parse_i32 str = .ok n) :
    0 ≤ n ∧ n ≤ 2147483647 := by
  rw [parse_i32] at h
  split_ifs at h with hle
  cases h
  constructor
  · exact Int.ofNat_nonneg _
  · exact_mod_cast hle

/-! ### Allocation postconditions -/

theorem alloc_nil (s : CellStorage) (v : CellType)
    (hch : freeChainB s [] s.free_index = true) :
    s.alloc_cell v = .error (.panic "Exhausted cell storage!") := by
  simp only [freeChainB, beq_iff_eq] at hch
  simp [CellStorage.alloc_cell, hch, NIL_INDEX]

theorem alloc_atom_post (s : CellStorage) (j : Nat) (l2 : List Nat) (v : CellType)
    (hch : freeChainB s (j :: l2) s.free_index = true) (hnd : (j :: l2).Nodup) :
    s.alloc_cell v =
      .ok (j, CellStorage.mk (s.tail_of j) (s.cells.set j ⟨v, NIL_INDEX⟩)) ∧
    j ≠ 0 ∧
    (CellStorage.mk (s.tail_of j) (s.cells.set j ⟨v, NIL_INDEX⟩)).get j =
      ⟨v, NIL_INDEX⟩ ∧
    freeChainB (CellStorage.mk (s.tail_of j) (s.cells.set j ⟨v, NIL_INDEX⟩)) l2
      (s.tail_of j) = true ∧
    (∀ x, x ≠ j →
      (CellStorage.mk (s.tail_of j) (s.cells.set j ⟨v, NIL_INDEX⟩)).get x = s.get x) ∧
    (CellStorage.mk (s.tail_of j) (s.cells.set j ⟨v, NIL_INDEX⟩)).cells.length =
      s.cells.length := by
  have hch2 := hch
  rw [freeChainB_cons_iff] at hch2
  obtain ⟨hfi, hj, hlt, hv, hrest⟩ := hch2
  refine ⟨alloc_of_chain s v j l2 hch, by omega, ?_, ?_, ?_, by simp⟩
  · exact get_set_self _ _ _ _ hlt
  · exact chain_after_alloc s j l2 ⟨v, NIL_INDEX⟩ hch hnd _
  · intro x hx
    have := get_set_ne (s.tail_of j) s.free_index s.cells j x ⟨v, NIL_INDEX⟩
      (fun hh => hx hh.symm)
    rw [this]

/-! ### Parser unfolding -/

theorem parse_sexp_succ (g : Nat) (input : List Nat) (s : CellStorage) (env : Env) :
    parse_sexp (g + 1) input s env = parse_sexp_go (parse_sexps g) input s env := rfl

theorem parse_sexps_succ (g : Nat) (input : List Nat) (s : CellStorage) (env : Env) :
    parse_sexps (g + 1) input s env =
      parse_sexps_go (parse_sexp g) (parse_sexps g) input s env := rfl

theorem parse_sexp_zero (input : List Nat) (s : CellStorage) (env : Env) :
    parse_sexp 0 input s env = .error .outOfFuel := rfl

theorem parse_sexps_zero (input : List Nat) (s : CellStorage) (env : Env) :
    parse_sexps 0 input s env = .error .outOfFuel := rfl

theorem except_bind_ok {α β : Type} (a : α) (f : α → Except RtError β) :
    (Except.ok a >>= f) = f a := rfl

theorem except_bind_err {α β : Type} (e : RtError) (f : α → Except RtError β) :
    ((Except.error e : Except RtError α) >>= f) = Except.error e := rfl

theorem drop_nodup {α : Type} (l : List α) (k : Nat) (h : l.Nodup) :
    (l.drop k).Nodup :=
  h.sublist (List.drop_sublist k l)

theorem perm_take_assemble (l Ca Cb : List Nat) (j : Nat) (l2 : List Nat)
    (ha : Ca.Perm (l.take Ca.length))
    (hb : Cb.Perm ((l.drop Ca.length).take Cb.length))
    (hj : l.drop (Ca.length + Cb.length) = j :: l2) :
    (j :: (Ca ++ Cb)).Perm (l.take (Ca.length + Cb.length + 1)) := by
  have h2 : l.take (Ca.length + Cb.length) =
      l.take Ca.length ++ (l.drop Ca.length).take Cb.length := by
    rw [List.take_add]
  have h1 : l.take (Ca.length + Cb.length + 1) =
      l.take (Ca.length + Cb.length) ++ [j] := by
    rw [List.take_add, hj]
    rfl
  rw [h1, h2]
  exact ((List.perm_append_singleton j (Ca ++ Cb)).symm).trans
    ((ha.append hb).append (List.Perm.refl [j]))


theorem parse_sexp_go_number (ps : List Nat → CellStorage → Env →
      Except RtError (Option Nat × CellStorage × Env × List Nat))
    (input input1 : List Nat) (s : CellStorage) (env : Env) (str : List Nat)
    (hnt : next_token input = .ok (some (Token.Number str), input1)) :
    parse_sexp_go ps input s env = (do
      let nval ← parse_i32 str
      let (idx, storage) ← s.alloc_cell (.Number nval)
      (.ok (some idx, storage, env, input1) :
        Except RtError (Option Nat × CellStorage × Env × List Nat))) := by
  rw [parse_sexp_go, hnt]
  rfl

theorem parse_sexp_go_symbol (ps : List Nat → CellStorage → Env →
      Except RtError (Option Nat × CellStorage × Env × List Nat))
    (input input1 : List Nat) (s : CellStorage) (env : Env) (name : List Nat)
    (hnt : next_token input = .ok (some (Token.Symbol name), input1)) :
    parse_sexp_go ps input s env = (do
      let (si, env2) := env.add_sym name
      let (idx, storage) ← s.alloc_cell (.Symbol si)
      (.ok (some idx, storage, env2, input1) :
        Except RtError (Option Nat × CellStorage × Env × List Nat))) := by
  rw [parse_sexp_go, hnt]
  rfl

theorem parse_sexp_go_lparen (ps : List Nat → CellStorage → Env →
      Except RtError (Option Nat × CellStorage × Env × List Nat))
    (input input1 : List Nat) (s : CellStorage) (env : Env)
    (hnt : next_token input = .ok (some Token.LeftParen, input1)) :
    parse_sexp_go ps input s env = (do
      match ← ps input1 s env with
      | (some exps, storage, env2, input2) => do
        let (tok2, input3) ← next_token input2
        match tok2 with
        | some Token.RightParen =>
          (.ok (some exps, storage, env2, input3) :
            Except RtError (Option Nat × CellStorage × Env × List Nat))
        | _ => .ok (none, storage, env2, input3)
      | (none, storage, env2, input2) => .ok (none, storage, env2, input2)) := by
  rw [parse_sexp_go, hnt]
  rfl

theorem parse_sexp_go_rparen (ps : List Nat → CellStorage → Env →
      Except RtError (Option Nat × CellStorage × Env × List Nat))
    (input input1 : List Nat) (s : CellStorage) (env : Env)
    (hnt : next_token input = .ok (some Token.RightParen, input1)) :
    parse_sexp_go ps input s env = .error (.panic "assertion failed") := by
  rw [parse_sexp_go, hnt]
  rfl

theorem parse_sexp_go_dot (ps : List Nat → CellStorage → Env →
      Except RtError (Option Nat × CellStorage × Env × List Nat))
    (input input1 : List Nat) (s : CellStorage) (env : Env)
    (hnt : next_token input = .ok (some Token.Dot, input1)) :
    parse_sexp_go ps input s env = .error (.panic "assertion failed") := by
  rw [parse_sexp_go, hnt]
  rfl

theorem parse_sexp_go_none (ps : List Nat → CellStorage → Env →
      Except RtError (Option Nat × CellStorage × Env × List Nat))
    (input input1 : List Nat) (s : CellStorage) (env : Env)
    (hnt : next_token input = .ok (none, input1)) :
    parse_sexp_go ps input s env = .ok (none, s, env, input1) := by
  rw [parse_sexp_go, hnt]
  rfl

theorem parse_sexp_go_err (ps : List Nat → CellStorage → Env →
      Except RtError (Option Nat × CellStorage × Env × List Nat))
    (input : List Nat) (s : CellStorage) (env : Env) (e : RtError)
    (hnt : next_token input = .error e) :
    parse_sexp_go ps input s env = .error e := by
  rw [parse_sexp_go, hnt]
  rfl

theorem parse_sexps_go_rparen (psexp psexps : List Nat → CellStorage → Env →
      Except RtError (Option Nat × CellStorage × Env × List Nat))
    (input inputP : List Nat) (s : CellStorage) (env : Env)
    (hnt : next_token input = .ok (some Token.RightParen, inputP)) :
    parse_sexps_go psexp psexps input s env = .ok (some NIL_INDEX, s, env, input) := by
  rw [parse_sexps_go, hnt]
  rfl

theorem parse_sexps_go_err (psexp psexps : List Nat → CellStorage → Env →
      Except RtError (Option Nat × CellStorage × Env × List Nat))
    (input : List Nat) (s : CellStorage) (env : Env) (e : RtError)
    (hnt : next_token input = .error e) :
    parse_sexps_go psexp psexps input s env = .error e := by
  rw [parse_sexps_go, hnt]
  rfl

theorem parse_sexps_go_else (psexp psexps : List Nat → CellStorage → Env →
      Except RtError (Option Nat × CellStorage × Env × List Nat))
    (input inputP : List Nat) (s : CellStorage) (env : Env) (ptok : Option Token)
    (hnt : next_token input = .ok (ptok, inputP))
    (hne : ptok ≠ some Token.RightParen) :
    parse_sexps_go psexp psexps input s env = (do
      match ← psexp input s env with
      | (some car, storage, env2, input1) => do
        let (ptok2, _) ← next_token input1
        let step ←
          (if ptok2 = some Token.Dot then do
            let (_, input2) ← next_token input1
            psexp input2 storage env2
          else psexps input1 storage env2)
        match step with
        | (some cdr, storage2, env3, input3) => do
          let (idx, storage3) ← storage2.alloc_cell (.Cons car)
          (.ok (some idx, storage3.set_tail idx cdr, env3, input3) :
            Except RtError (Option Nat × CellStorage × Env × List Nat))
        | (none, storage2, env3, input3) => .ok (none, storage2, env3, input3)
      | (none, storage, env2, input1) => .ok (none, storage, env2, input1)) := by
  rw [parse_sexps_go, hnt]
  rcases ptok with - | tk
  · rfl
  rcases tk
  · rfl
  · exact absurd rfl hne
  · rfl
  · rfl
  · rfl

/-- Soundness of the parser: a successful parse builds a well-formed tree
out of a prefix of the free chain and otherwise leaves the arena alone. -/
theorem parse_builds_tree (f : Nat) :
    (∀ input s env l idx s2 env2 rest,
      freeChainB s l s.free_index = true → l.Nodup → env.symbols.Nodup →
      (∀ c ∈ input, c < 128) →
      parse_sexp f input s env = .ok (some idx, s2, env2, rest) →
      ParsePost input s env l idx s2 env2 rest) ∧
    (∀ input s env l idx s2 env2 rest,
      freeChainB s l s.free_index = true → l.Nodup → env.symbols.Nodup →
      (∀ c ∈ input, c < 128) →
      parse_sexps f input s env = .ok (some idx, s2, env2, rest) →
      ParsePost input s env l idx s2 env2 rest) := by
  induction f with
  | zero =>
    constructor
    · intro input s env l idx s2 env2 rest _ _ _ _ h
      rw [parse_sexp_zero] at h
      cases h
    · intro input s env l idx s2 env2 rest _ _ _ _ h
      rw [parse_sexps_zero] at h
      cases h
  | succ g ih =>
    obtain ⟨ih1, ih2⟩ := ih
    constructor
    · -- parse_sexp (g+1)
      intro input s env l idx s2 env2 rest hch hnd hend hascii h
      rw [parse_sexp_succ] at h
      rcases hnt : next_token input with e | ⟨tok, input1⟩
      · rw [parse_sexp_go_err _ _ _ _ e hnt] at h
        cases h
      have hrest1 : ∀ c ∈ input1, c ∈ input := (next_token_mem input tok input1 hnt).1
      rcases tok with - | tk
      · rw [parse_sexp_go_none _ _ input1 _ _ hnt] at h
        cases h
      rcases tk with - | - | - | str_num | name
      · -- LeftParen
        rw [parse_sexp_go_lparen _ _ input1 _ _ hnt] at h
        rcases hps : parse_sexps g input1 s env with e | ⟨o, sp, envp, input2⟩ <;>
          rw [hps] at h
        · rw [except_bind_err] at h
          cases h
        simp only [except_bind_ok] at h
        rcases o with - | exps
        · simp at h
        have hascii1 : ∀ c ∈ input1, c < 128 := fun c hc => hascii c (hrest1 c hc)
        have post := ih2 input1 s env l exps sp envp input2 hch hnd hend hascii1 hps
        rcases hnt2 : next_token input2 with e | ⟨tok2, input3⟩
        · simp only [hnt2, except_bind_err] at h
          cases h
        simp only [hnt2, except_bind_ok] at h
        rcases tok2 with - | tk2
        · simp at h
        rcases tk2 with - | - | - | nn | nn <;> try simp at h
        obtain ⟨h1, h2, h3, h4⟩ := h
        subst h1; subst h2; subst h3; subst h4
        obtain ⟨t, C, hT, hP, hC, hL, hF, hE, hN, hW, hR⟩ := post
        refine ⟨t, C, hT, hP, hC, hL, hF, hE, hN, hW, ?_⟩
        intro c hc
        exact hrest1 _ (hR _ ((next_token_mem input2 _ _ hnt2).1 c hc))
      · -- RightParen at head: assertion failure
        rw [parse_sexp_go_rparen _ _ input1 _ _ hnt] at h
        cases h
      · -- Dot at head: assertion failure
        rw [parse_sexp_go_dot _ _ input1 _ _ hnt] at h
        cases h
      · -- Number token
        rw [parse_sexp_go_number _ _ input1 _ _ str_num hnt] at h
        rcases hp32 : parse_i32 str_num with e | nval <;> rw [hp32] at h
        · rw [except_bind_err] at h
          cases h
        simp only [except_bind_ok] at h
        rcases hl : l with - | ⟨j, l2⟩
        · rw [hl] at hch
          rw [alloc_nil s _ hch] at h
          rw [except_bind_err] at h
          cases h
        rw [hl] at hch hnd
        obtain ⟨halloc, hj0, hgetj, hchain2, hframe, hlen⟩ :=
          alloc_atom_post s j l2 (CellType.Number nval) hch hnd
        rw [halloc] at h
        simp only [except_bind_ok] at h
        simp only [Except.ok.injEq, Prod.mk.injEq, Option.some_inj] at h
        obtain ⟨h1, h2, h3, h4⟩ := h
        subst h1; subst h2; subst h3; subst h4
        obtain ⟨hnn0, hnnmax⟩ := parse_i32_ok str_num nval hp32
        refine ⟨SExp.num nval, [j], ?_, by simp, by simpa using hchain2,
          hlen, ?_, ⟨[], by simp⟩, hend, ?_, hrest1⟩
        · exact TreeAt.num (by simp only [NIL_INDEX]; omega) (by rw [hgetj])
        · intro x hx
          exact hframe x (by simpa using hx)
        · simp only [WfSExp, Bool.and_eq_true, decide_eq_true_eq]
          exact ⟨hnn0, hnnmax⟩
      · -- Symbol token
        rw [parse_sexp_go_symbol _ _ input1 _ _ name hnt] at h
        rcases hsym : env.add_sym name with ⟨si, env1⟩
        rw [hsym] at h
        have hspec := add_sym_spec env name
        rw [hsym] at hspec
        obtain ⟨⟨d, hd⟩, hlook, hndf⟩ := hspec
        simp only [] at h
        rcases hl : l with - | ⟨j, l2⟩
        · rw [hl] at hch
          rw [alloc_nil s _ hch] at h
          rw [except_bind_err] at h
          cases h
        rw [hl] at hch hnd
        obtain ⟨halloc, hj0, hgetj, hchain2, hframe, hlen⟩ :=
          alloc_atom_post s j l2 (CellType.Symbol si) hch hnd
        rw [halloc] at h
        simp only [except_bind_ok] at h
        simp only [Except.ok.injEq, Prod.mk.injEq, Option.some_inj] at h
        obtain ⟨h1, h2, h3, h4⟩ := h
        subst h1; subst h2; subst h3; subst h4
        have htn : tokenName name = true := by
          rcases (next_token_mem input _ input1 hnt).2 name (Or.inl rfl) with hnm | hnm
          · subst hnm
            decide
          · rcases next_token_symbol_shape input name input1 hnt with hnm2 | ⟨hne, hall, hhd⟩
            · subst hnm2
              decide
            · simp only [tokenName, Bool.or_eq_true, Bool.and_eq_true, beq_iff_eq,
                Bool.not_eq_true', List.all_eq_true]
              refine Or.inr ⟨⟨?_, ?_⟩, hhd⟩
              · simpa using hne
              · intro c hc
                simp only [Bool.and_eq_true, decide_eq_true_eq]
                exact ⟨hall c hc, hascii c (hnm c hc)⟩
        refine ⟨SExp.sym si, [j], ?_, by simp, by simpa using hchain2,
          hlen, ?_, ⟨d, hd⟩, hndf hend, ?_, hrest1⟩
        · exact TreeAt.sym (by simp only [NIL_INDEX]; omega) (by rw [hgetj])
        · intro x hx
          exact hframe x (by simpa using hx)
        · simp only [WfSExp]
          rw [hlook]
          exact htn
    · -- parse_sexps (g+1)
      intro input s env l idx s2 env2 rest hch hnd hend hascii h
      rw [parse_sexps_succ] at h
      rcases hnt : next_token input with e | ⟨ptok, inputP⟩
      · rw [parse_sexps_go_err _ _ _ _ _ e hnt] at h
        cases h
      by_cases hrp : ptok = some Token.RightParen
      · subst hrp
        rw [parse_sexps_go_rparen _ _ input inputP s env hnt] at h
        simp only [Except.ok.injEq, Prod.mk.injEq, Option.some_inj] at h
        obtain ⟨h1, h2, h3, h4⟩ := h
        subst h1; subst h2; subst h3; subst h4
        exact ⟨SExp.nil, [], TreeAt.nil, by simp, by simpa using hch, rfl,
          fun j _ => rfl, ⟨[], by simp⟩, hend, rfl, fun c hc => hc⟩
      · rw [parse_sexps_go_else _ _ input inputP s env ptok hnt hrp] at h
        rcases hps1 : parse_sexp g input s env with e | ⟨o, s1, env1, input1⟩ <;>
          rw [hps1] at h
        · rw [except_bind_err] at h
          cases h
        simp only [except_bind_ok] at h
        rcases o with - | car
        · simp at h
        have post_a := ih1 input s env l car s1 env1 input1 hch hnd hend hascii hps1
        obtain ⟨ta, Ca, hTa, hPa, hCa, hLa, hFa, ⟨da, hEa⟩, hNa, hWa, hRa⟩ := post_a
        have hascii1 : ∀ c ∈ input1, c < 128 := fun c hc => hascii c (hRa c hc)
        have hnd2 : (l.drop Ca.length).Nodup := drop_nodup l Ca.length hnd
        rcases hnt2 : next_token input1 with e | ⟨ptok2, inputQ⟩
        · simp only [hnt2, except_bind_err] at h
          cases h
        simp only [hnt2, except_bind_ok] at h
        have hrestQ : ∀ c ∈ inputQ, c ∈ input1 := (next_token_mem input1 _ _ hnt2).1
        -- the dotted-tail and proper-list branches both produce the cdr tree
        have hstep : ∃ cdr sB envB input3 tb Cb,
            (if ptok2 = some Token.Dot then parse_sexp g inputQ s1 env1
             else parse_sexps g input1 s1 env1) = .ok (some cdr, sB, envB, input3) ∧
            TreeAt sB cdr tb Cb ∧
            Cb.Perm ((l.drop Ca.length).take Cb.length) ∧
            freeChainB sB ((l.drop Ca.length).drop Cb.length) sB.free_index = true ∧
            sB.cells.length = s1.cells.length ∧
            (∀ x, x ∉ Cb → sB.get x = s1.get x) ∧
            (∃ db, envB.symbols = env1.symbols ++ db) ∧
            envB.symbols.Nodup ∧
            WfSExp envB tb = true ∧
            (∀ c ∈ input3, c ∈ input) := by
          by_cases hdot : ptok2 = some Token.Dot
          · rw [if_pos hdot] at h ⊢
            rcases hps2 : parse_sexp g inputQ s1 env1 with e | ⟨o2, sB, envB, input3⟩ <;>
              rw [hps2] at h
            · rw [except_bind_err] at h
              cases h
            simp only [except_bind_ok] at h
            rcases o2 with - | cdr
            · simp at h
            have post_b := ih1 inputQ s1 env1 (l.drop Ca.length) cdr sB envB input3
              hCa hnd2 hNa (fun c hc => hascii1 c (hrestQ c hc)) hps2
            obtain ⟨tb, Cb, hTb, hPb, hCb, hLb, hFb, hEb, hNb, hWb, hRb⟩ := post_b
            exact ⟨cdr, sB, envB, input3, tb, Cb, rfl, hTb, hPb, hCb, hLb, hFb, hEb,
              hNb, hWb, fun c hc => hRa c (hrestQ c (hRb c hc))⟩
          · rw [if_neg hdot] at h ⊢
            rcases hps2 : parse_sexps g input1 s1 env1 with e | ⟨o2, sB, envB, input3⟩ <;>
              rw [hps2] at h
            · rw [except_bind_err] at h
              cases h
            simp only [except_bind_ok] at h
            rcases o2 with - | cdr
            · simp at h
            have post_b := ih2 input1 s1 env1 (l.drop Ca.length) cdr sB envB input3
              hCa hnd2 hNa hascii1 hps2
            obtain ⟨tb, Cb, hTb, hPb, hCb, hLb, hFb, hEb, hNb, hWb, hRb⟩ := post_b
            exact ⟨cdr, sB, envB, input3, tb, Cb, rfl, hTb, hPb, hCb, hLb, hFb, hEb,
              hNb, hWb, fun c hc => hRa c (hRb c hc)⟩
        obtain ⟨cdr, sB, envB, input3, tb, Cb, heq, hTb, hPb, hCb, hLb, hFb,
          ⟨db, hEb⟩, hNb, hWb, hR3⟩ := hstep
        rw [heq] at h
        simp only [except_bind_ok] at h
        -- allocate the list cell
        have hdd : (l.drop Ca.length).drop Cb.length = l.drop (Ca.length + Cb.length) := by
          rw [List.drop_drop, Nat.add_comm]
        rcases hl2 : l.drop (Ca.length + Cb.length) with - | ⟨j, l2⟩
        · rw [hdd, hl2] at hCb
          rw [alloc_nil sB _ hCb] at h
          rw [except_bind_err] at h
          cases h
        rw [hdd, hl2] at hCb
        have hndj : (j :: l2).Nodup := by
          have := drop_nodup l (Ca.length + Cb.length) hnd
          rw [hl2] at this
          exact this
        have hCbiff := hCb
        rw [freeChainB_cons_iff] at hCbiff
        obtain ⟨hfiB, hjpos, hjlt, hjfree, hrestch⟩ := hCbiff
        rw [alloc_of_chain sB (CellType.Cons car) j l2 hCb] at h
        simp only [except_bind_ok] at h
        have hsetgt : (CellStorage.mk (sB.tail_of j)
            (sB.cells.set j ⟨CellType.Cons car, NIL_INDEX⟩)).get j =
            ⟨CellType.Cons car, NIL_INDEX⟩ := get_set_self _ _ _ _ hjlt
        have hst : (CellStorage.mk (sB.tail_of j)
            (sB.cells.set j ⟨CellType.Cons car, NIL_INDEX⟩)).set_tail j cdr =
            CellStorage.mk (sB.tail_of j) (sB.cells.set j ⟨CellType.Cons car, cdr⟩) := by
          rw [CellStorage.set_tail, hsetgt]
          simp [List.set_set]
        rw [hst] at h
        simp only [Except.ok.injEq, Prod.mk.injEq, Option.some_inj] at h
        obtain ⟨h1, h2, h3, h4⟩ := h
        subst h1; subst h2; subst h3; subst h4
        -- membership facts for disjointness
        have hmemCa : ∀ x ∈ Ca, x ∈ l.take Ca.length := fun x hx => hPa.mem_iff.mp hx
        have hmemCb : ∀ x ∈ Cb, x ∈ (l.drop Ca.length).take Cb.length :=
          fun x hx => hPb.mem_iff.mp hx
        have hjmem : j ∈ l.drop (Ca.length + Cb.length) := by rw [hl2]; simp
        have hCaCb : ∀ x ∈ Ca, x ∉ Cb := by
          intro x hx hx2
          exact List.disjoint_take_drop hnd (le_refl Ca.length) (hmemCa x hx)
            (List.take_subset _ _ (hmemCb x hx2))
        have hCaj : ∀ x ∈ Ca, x ≠ j := by
          intro x hx hxj
          subst hxj
          exact List.disjoint_take_drop hnd
            (Nat.le_add_right Ca.length Cb.length) (hmemCa x hx) hjmem
        have hCbj : ∀ x ∈ Cb, x ≠ j := by
          intro x hx hxj
          subst hxj
          have hjd : x ∈ (l.drop Ca.length).drop Cb.length := by
            rw [hdd, hl2]; simp
          exact List.disjoint_take_drop (drop_nodup l Ca.length hnd)
            (le_refl Cb.length) (hmemCb x hx) hjd
        -- the final storage
        have hgetj3 : (CellStorage.mk (sB.tail_of j)
            (sB.cells.set j ⟨CellType.Cons car, cdr⟩)).get j =
            ⟨CellType.Cons car, cdr⟩ := get_set_self _ _ _ _ hjlt
        have hframe3 : ∀ x, x ≠ j →
            (CellStorage.mk (sB.tail_of j)
              (sB.cells.set j ⟨CellType.Cons car, cdr⟩)).get x = sB.get x := by
          intro x hx
          have := get_set_ne (sB.tail_of j) sB.free_index sB.cells j x
            ⟨CellType.Cons car, cdr⟩ (fun hh => hx hh.symm)
          rw [this]
        have hTa3 : TreeAt (CellStorage.mk (sB.tail_of j)
            (sB.cells.set j ⟨CellType.Cons car, cdr⟩)) car ta Ca := by
          refine TreeAt_congr ta s1 _ car Ca hTa ?_
          intro x hx
          rw [hframe3 x (hCaj x hx)]
          exact hFb x (hCaCb x hx)
        have hTb3 : TreeAt (CellStorage.mk (sB.tail_of j)
            (sB.cells.set j ⟨CellType.Cons car, cdr⟩)) cdr tb Cb := by
          refine TreeAt_congr tb sB _ cdr Cb hTb ?_
          intro x hx
          exact hframe3 x (hCbj x hx)
        refine ⟨SExp.cons ta tb, j :: (Ca ++ Cb), ?_, ?_, ?_, ?_, ?_, ?_, ?_, ?_, ?_⟩
        · refine TreeAt.cons (by simp only [NIL_INDEX]; omega) (by rw [hgetj3]) hTa3 ?_
          rw [hgetj3]
          exact hTb3
        · have hlen : (j :: (Ca ++ Cb)).length = Ca.length + Cb.length + 1 := by
            simp
          rw [hlen]
          exact perm_take_assemble l Ca Cb j l2 hPa hPb hl2
        · have hlen : (j :: (Ca ++ Cb)).length = Ca.length + Cb.length + 1 := by
            simp
          rw [hlen]
          have hdl2 : l.drop (Ca.length + Cb.length + 1) = l2 := by
            have : l.drop (Ca.length + Cb.length + 1) =
                (l.drop (Ca.length + Cb.length)).drop 1 := by
              rw [List.drop_drop, Nat.add_comm]
            rw [this, hl2]
            rfl
          rw [hdl2]
          exact chain_after_alloc sB j l2 ⟨CellType.Cons car, cdr⟩ hCb hndj _
        · simp [hLb, hLa]
        · intro x hx
          simp only [List.mem_cons, List.mem_append] at hx
          push_neg at hx
          obtain ⟨hxj, hxa, hxb⟩ := hx
          rw [hframe3 x hxj, hFb x hxb, hFa x hxa]
        · exact ⟨da ++ db, by rw [hEb, hEa, List.append_assoc]⟩
        · exact hNb
        · simp only [WfSExp, Bool.and_eq_true]
          exact ⟨WfSExp_mono env1 envB ta db hEb hWa, hWb⟩
        · exact hR3

/-! ### Printer unfolding -/

theorem sexpSize_pos (t : SExp) : 0 < sexpSize t := by
  cases t <;> simp [sexpSize]

theorem print_exp_nil (g : Nat) (s : CellStorage) (env : Env) :
    print_exp (g + 1) s env NIL_INDEX = [40, 41] := by
  rw [print_exp, printF]
  simp only []
  rfl

theorem print_exp_num (g : Nat) (s : CellStorage) (env : Env) (idx : Nat)
    (n : Int) (hi : idx ≠ NIL_INDEX) (hv : (s.get idx).val = CellType.Number n) :
    print_exp (g + 1) s env idx = int_decimal n := by
  rw [print_exp, printF]
  simp only []
  rw [if_neg hi, hv]

theorem print_exp_sym (g : Nat) (s : CellStorage) (env : Env) (idx : Nat)
    (k : Nat) (hi : idx ≠ NIL_INDEX) (hv : (s.get idx).val = CellType.Symbol k) :
    print_exp (g + 1) s env idx = utf8encode (env.symbols.getD k []) := by
  rw [print_exp, printF]
  simp only []
  rw [if_neg hi, hv]

theorem print_exp_cons (g : Nat) (s : CellStorage) (env : Env) (idx : Nat)
    (h : Nat) (hi : idx ≠ NIL_INDEX) (hv : (s.get idx).val = CellType.Cons h) :
    print_exp (g + 1) s env idx =
      40 :: (print_exp g s env h ++ print_tail g s env (s.tail_of idx)) := by
  rw [print_exp, printF]
  simp only []
  rw [if_neg hi, hv, print_list_go, hv]
  rfl

theorem print_tail_nil (g : Nat) (s : CellStorage) (env : Env)
    (hnil : (s.get NIL_INDEX).val = CellType.Free) :
    print_tail (g + 1) s env NIL_INDEX = [41] := by
  rw [print_tail, printF]
  simp only []
  rw [hnil]
  rfl

theorem print_tail_num (g : Nat) (s : CellStorage) (env : Env) (exp : Nat)
    (n : Int) (hi : exp ≠ NIL_INDEX) (hv : (s.get exp).val = CellType.Number n) :
    print_tail (g + 1) s env exp =
      32 :: 46 :: 32 :: (print_exp g s env exp ++ [41]) := by
  rw [print_tail, printF]
  simp only []
  rw [hv]
  rw [if_neg hi]
  rfl

theorem print_tail_sym (g : Nat) (s : CellStorage) (env : Env) (exp : Nat)
    (k : Nat) (hi : exp ≠ NIL_INDEX) (hv : (s.get exp).val = CellType.Symbol k) :
    print_tail (g + 1) s env exp =
      32 :: 46 :: 32 :: (print_exp g s env exp ++ [41]) := by
  rw [print_tail, printF]
  simp only []
  rw [hv]
  rw [if_neg hi]
  rfl

theorem print_tail_cons (g : Nat) (s : CellStorage) (env : Env) (exp : Nat)
    (h : Nat) (hv : (s.get exp).val = CellType.Cons h) :
    print_tail (g + 1) s env exp =
      32 :: (print_exp g s env h ++ print_tail g s env (s.tail_of exp)) := by
  rw [print_tail, printF]
  simp only []
  rw [hv]
  rfl

/-- Correctness of the printer: on a tree laid out in the arena whose
numbers and symbol names are the ones the parser produces (and with the
nil sentinel cell `Free`), `print_exp` emits exactly the canonical bytes
of the abstract tree, and the `print_list` tail walk emits the canonical
tail bytes. -/
theorem printF_correct (f : Nat) :
    (∀ s env idx t C, TreeAt s idx t C → WfSExp env t = true →
      (s.get NIL_INDEX).val = CellType.Free → sexpSize t ≤ f →
      print_exp f s env idx = pbytesExp env t) ∧
    (∀ s env idx t C, TreeAt s idx t C → WfSExp env t = true →
      (s.get NIL_INDEX).val = CellType.Free → sexpSize t < f →
      print_tail f s env idx = pbytesTail env t) := by
  induction f with
  | zero =>
    constructor
    · intro s env idx t C hT hW hnil hsz
      have := sexpSize_pos t
      omega
    · intro s env idx t C hT hW hnil hsz
      omega
  | succ g ih =>
    obtain ⟨ihe, iht⟩ := ih
    constructor
    · intro s env idx t C hT hW hnil hsz
      cases hT with
      | nil => rw [print_exp_nil]; rfl
      | num hi hv =>
        simp only [WfSExp, Bool.and_eq_true, decide_eq_true_eq] at hW
        rw [print_exp_num g s env idx _ hi hv, int_decimal_nonneg _ hW.1]
        rfl
      | sym hi hv =>
        rename_i k
        simp only [WfSExp] at hW
        cases hk : env.symbols.get? k with
        | none => rw [hk] at hW; simp at hW
        | some name =>
          rw [hk] at hW
          have hgd : env.symbols.getD k [] = name := by
            rw [List.getD_eq_getD_get?, hk]
            rfl
          rw [print_exp_sym g s env idx k hi hv, hgd,
            utf8encode_ascii name (tokenName_ascii name hW)]
          show _ = env.symbols.getD k []
          rw [hgd]
      | cons hi hv ha hb =>
        rename_i h a b Ca Cb
        simp only [WfSExp, Bool.and_eq_true] at hW
        have hsa := sexpSize_pos a
        have hsb := sexpSize_pos b
        simp only [sexpSize] at hsz
        rw [print_exp_cons g s env idx h hi hv,
          ihe s env h a Ca ha hW.1 hnil (by omega),
          iht s env (s.tail_of idx) b Cb hb hW.2 hnil (by omega)]
        rfl
    · intro s env idx t C hT hW hnil hsz
      cases hT with
      | nil => rw [print_tail_nil g s env hnil]; rfl
      | num hi hv =>
        simp only [WfSExp, Bool.and_eq_true, decide_eq_true_eq] at hW
        rw [print_tail_num g s env idx _ hi hv,
          ihe s env idx _ [idx] (TreeAt.num hi hv)
            (by simp [WfSExp]; exact ⟨hW.1, hW.2⟩) hnil
            (by simp only [sexpSize] at hsz ⊢; omega)]
        simp only [pbytesExp, pbytesTail, int_decimal_nonneg _ hW.1]
      | sym hi hv =>
        rename_i k
        rw [print_tail_sym g s env idx k hi hv,
          ihe s env idx _ [idx] (TreeAt.sym hi hv) hW hnil
            (by simp only [sexpSize] at hsz ⊢; omega)]
        rfl
      | cons hi hv ha hb =>
        rename_i h a b Ca Cb
        simp only [WfSExp, Bool.and_eq_true] at hW
        have hsa := sexpSize_pos a
        have hsb := sexpSize_pos b
        simp only [sexpSize] at hsz
        rw [print_tail_cons g s env idx h hv,
          ihe s env h a Ca ha hW.1 hnil (by omega),
          iht s env (s.tail_of idx) b Cb hb hW.2 hnil (by omega)]
        rfl

/-! ### Re-parsing the printed text -/

theorem next_token_ws_cases (w x : List Nat) (hw : w = [] ∨ w = [32]) :
    next_token (w ++ x) = next_token x := by
  rcases hw with rfl | rfl
  · rw [List.nil_append]
  · exact next_token_space x

theorem parse_sexp_ws (f : Nat) (w x : List Nat) (s : CellStorage) (env : Env)
    (hw : w = [] ∨ w = [32]) :
    parse_sexp f (w ++ x) s env = parse_sexp f x s env := by
  cases f with
  | zero => rfl
  | succ g =>
    rw [parse_sexp_succ, parse_sexp_succ, parse_sexp_go, parse_sexp_go,
      next_token_ws_cases w x hw]

theorem pbytesTail_sep (env : Env) (b : SExp) (r : List Nat) :
    SepB (pbytesTail env b ++ r) = true := by
  cases b <;> rfl

theorem SepB_not_digit (r : List Nat) (h : SepB r = true) :
    ∀ c, r.head? = some c → is_digit10 c = false := by
  intro c hc
  cases r with
  | nil => simp at hc
  | cons c0 r2 =>
    simp only [List.head?_cons, Option.some_inj] at hc
    subst hc
    simp only [SepB, Bool.or_eq_true, beq_iff_eq] at h
    rcases h with rfl | rfl <;> decide

theorem SepB_not_alnum (r : List Nat) (h : SepB r = true) :
    ∀ c, r.head? = some c → is_alphanumeric c = false := by
  intro c hc
  cases r with
  | nil => simp at hc
  | cons c0 r2 =>
    simp only [List.head?_cons, Option.some_inj] at hc
    subst hc
    simp only [SepB, Bool.or_eq_true, beq_iff_eq] at h
    rcases h with rfl | rfl <;> decide

theorem next_token_digit_head (c : Nat) (x : List Nat)
    (hc : is_digit10 c = true) :
    ∃ ds rem, next_token (c :: x) = .ok (some (Token.Number ds), rem) := by
  obtain ⟨hws, h40, h41, h46, h39⟩ := digit_not_special c hc
  rcases hcw : consume_while is_digit10 (c :: x) with ⟨ds, rem⟩
  refine ⟨ds, rem, ?_⟩
  rw [next_token, consume_whitespace_not_ws _ _ hws]
  simp [h40, h41, h46, h39, hc, hcw]

theorem next_token_alnum_head (c : Nat) (x : List Nat)
    (hc : is_alphanumeric c = true) (hd : is_digit10 c = false) :
    ∃ nm rem, next_token (c :: x) = .ok (some (Token.Symbol nm), rem) := by
  obtain ⟨hws, h40, h41, h46, h39⟩ := alnum_not_special c hc
  rcases hcw : consume_while is_alphanumeric (c :: x) with ⟨nm, rem⟩
  refine ⟨nm, rem, ?_⟩
  rw [next_token, consume_whitespace_not_ws _ _ hws]
  simp [h40, h41, h46, h39, hc, hd, hcw]

/-- The first token of the canonical bytes of a well-formed tree is never
a right paren, a dot, or end of input. -/
theorem pbytes_first_token (env : Env) (t : SExp) (r : List Nat)
    (hW : WfSExp env t = true) :
    ∃ tok inputP, next_token (pbytesExp env t ++ r) = .ok (some tok, inputP) ∧
      tok ≠ Token.RightParen ∧ tok ≠ Token.Dot := by
  cases t with
  | nil =>
    exact ⟨Token.LeftParen, 41 :: r, by simpa using next_token_lparen (41 :: r),
      by decide, by decide⟩
  | num n =>
    simp only [WfSExp, Bool.and_eq_true, decide_eq_true_eq] at hW
    obtain ⟨hne, hdig, -⟩ := nat_decimal_spec n.toNat
    obtain ⟨d, ds, hds⟩ := List.exists_cons_of_ne_nil hne
    have hd : is_digit10 d = true := by
      apply hdig
      rw [hds]
      simp
    obtain ⟨ds2, rem, hnt⟩ := next_token_digit_head d (ds ++ r) hd
    refine ⟨Token.Number ds2, rem, ?_, by simp, by simp⟩
    show next_token (pbytesExp env (SExp.num n) ++ r) = _
    simp only [pbytesExp]
    rw [hds]
    simpa using hnt
  | sym k =>
    simp only [WfSExp] at hW
    cases hk : env.symbols.get? k with
    | none => rw [hk] at hW; simp at hW
    | some name =>
      rw [hk] at hW
      have hgd : env.symbols.getD k [] = name := by
        rw [List.getD_eq_getD_get?, hk]
        rfl
      show ∃ tok inputP,
        next_token (env.symbols.getD k [] ++ r) = .ok (some tok, inputP) ∧
          tok ≠ Token.RightParen ∧ tok ≠ Token.Dot
      rw [hgd]
      rcases tokenName_cases name hW with rfl | ⟨hne, hall, hhd⟩
      · exact ⟨Token.Symbol [39], r, by simpa using next_token_tick r,
          by simp, by simp⟩
      · obtain ⟨c, nm2, hnm⟩ := List.exists_cons_of_ne_nil hne
        have hcal : is_alphanumeric c = true := by
          apply fun h => (hall c h).1
          rw [hnm]
          simp
        have hcd : is_digit10 c = false := by
          rw [hnm] at hhd
          simpa using hhd
        obtain ⟨nm3, rem, hnt⟩ := next_token_alnum_head c (nm2 ++ r) hcal hcd
        refine ⟨Token.Symbol nm3, rem, ?_, by simp, by simp⟩
        rw [hnm]
        simpa using hnt
  | cons a b =>
    refine ⟨Token.LeftParen, (pbytesExp env a ++ pbytesTail env b) ++ r, ?_,
      by decide, by decide⟩
    simp only [pbytesExp, List.cons_append]
    exact next_token_lparen _

/-- Allocating and linking the list cell after the head tree (rooted at
`car`, occupying `Ca`) and the tail tree (rooted at `cdr`, occupying `Cb`)
have been rebuilt from successive prefixes of the free chain `l`. -/
theorem reparse_assemble (s sA sB : CellStorage) (env : Env) (l : List Nat)
    (a b : SExp) (car cdr : Nat) (Ca Cb : List Nat) (rest : List Nat)
    (hnd : l.Nodup)
    (hTa : TreeAt sA car a Ca)
    (hPa : Ca.Perm (l.take Ca.length))
    (hTb : TreeAt sB cdr b Cb)
    (hPb : Cb.Perm ((l.drop Ca.length).take Cb.length))
    (hCb : freeChainB sB ((l.drop Ca.length).drop Cb.length) sB.free_index = true)
    (hLa : sA.cells.length = s.cells.length)
    (hLb : sB.cells.length = sA.cells.length)
    (hFa : ∀ j, j ∉ Ca → sA.get j = s.get j)
    (hFb : ∀ j, j ∉ Cb → sB.get j = sA.get j)
    (hlt : Ca.length + Cb.length < l.length) :
    ∃ j s3 C,
      (do
        let (idx, storage3) ← sB.alloc_cell (CellType.Cons car)
        (.ok (some idx, storage3.set_tail idx cdr, env, rest) : ParseOut)) =
        .ok (some j, s3, env, rest) ∧
      TreeAt s3 j (SExp.cons a b) C ∧ C.Perm (l.take C.length) ∧
      freeChainB s3 (l.drop C.length) s3.free_index = true ∧
      s3.cells.length = s.cells.length ∧
      (∀ x, x ∉ C → s3.get x = s.get x) := by
  have hdd : (l.drop Ca.length).drop Cb.length = l.drop (Ca.length + Cb.length) := by
    rw [List.drop_drop, Nat.add_comm]
  rcases hl2 : l.drop (Ca.length + Cb.length) with - | ⟨j, l2⟩
  · exfalso
    have := congrArg List.length hl2
    simp [List.length_drop] at this
    omega
  rw [hdd, hl2] at hCb
  have hndj : (j :: l2).Nodup := by
    have := drop_nodup l (Ca.length + Cb.length) hnd
    rw [hl2] at this
    exact this
  have hCbiff := hCb
  rw [freeChainB_cons_iff] at hCbiff
  obtain ⟨hfiB, hjpos, hjlt, hjfree, hrestch⟩ := hCbiff
  have hsetgt : (CellStorage.mk (sB.tail_of j)
      (sB.cells.set j ⟨CellType.Cons car, NIL_INDEX⟩)).get j =
      ⟨CellType.Cons car, NIL_INDEX⟩ := get_set_self _ _ _ _ hjlt
  have hst : (CellStorage.mk (sB.tail_of j)
      (sB.cells.set j ⟨CellType.Cons car, NIL_INDEX⟩)).set_tail j cdr =
      CellStorage.mk (sB.tail_of j) (sB.cells.set j ⟨CellType.Cons car, cdr⟩) := by
    rw [CellStorage.set_tail, hsetgt]
    simp [List.set_set]
  -- membership facts for disjointness
  have hmemCa : ∀ x ∈ Ca, x ∈ l.take Ca.length := fun x hx => hPa.mem_iff.mp hx
  have hmemCb : ∀ x ∈ Cb, x ∈ (l.drop Ca.length).take Cb.length :=
    fun x hx => hPb.mem_iff.mp hx
  have hjmem : j ∈ l.drop (Ca.length + Cb.length) := by rw [hl2]; simp
  have hCaCb : ∀ x ∈ Ca, x ∉ Cb := by
    intro x hx hx2
    exact List.disjoint_take_drop hnd (le_refl Ca.length) (hmemCa x hx)
      (List.take_subset _ _ (hmemCb x hx2))
  have hCaj : ∀ x ∈ Ca, x ≠ j := by
    intro x hx hxj
    subst hxj
    exact List.disjoint_take_drop hnd
      (Nat.le_add_right Ca.length Cb.length) (hmemCa x hx) hjmem
  have hCbj : ∀ x ∈ Cb, x ≠ j := by
    intro x hx hxj
    subst hxj
    have hjd : x ∈ (l.drop Ca.length).drop Cb.length := by
      rw [hdd, hl2]; simp
    exact List.disjoint_take_drop (drop_nodup l Ca.length hnd)
      (le_refl Cb.length) (hmemCb x hx) hjd
  have hgetj3 : (CellStorage.mk (sB.tail_of j)
      (sB.cells.set j ⟨CellType.Cons car, cdr⟩)).get j =
      ⟨CellType.Cons car, cdr⟩ := get_set_self _ _ _ _ hjlt
  have hframe3 : ∀ x, x ≠ j →
      (CellStorage.mk (sB.tail_of j)
        (sB.cells.set j ⟨CellType.Cons car, cdr⟩)).get x = sB.get x := by
    intro x hx
    have := get_set_ne (sB.tail_of j) sB.free_index sB.cells j x
      ⟨CellType.Cons car, cdr⟩ (fun hh => hx hh.symm)
    rw [this]
  have hTa3 : TreeAt (CellStorage.mk (sB.tail_of j)
      (sB.cells.set j ⟨CellType.Cons car, cdr⟩)) car a Ca := by
    refine TreeAt_congr a sA _ car Ca hTa ?_
    intro x hx
    rw [hframe3 x (hCaj x hx)]
    exact hFb x (hCaCb x hx)
  have hTb3 : TreeAt (CellStorage.mk (sB.tail_of j)
      (sB.cells.set j ⟨CellType.Cons car, cdr⟩)) cdr b Cb := by
    refine TreeAt_congr b sB _ cdr Cb hTb ?_
    intro x hx
    exact hframe3 x (hCbj x hx)
  refine ⟨j, CellStorage.mk (sB.tail_of j)
    (sB.cells.set j ⟨CellType.Cons car, cdr⟩), j :: (Ca ++ Cb), ?_, ?_, ?_, ?_, ?_, ?_⟩
  · rw [alloc_of_chain sB (CellType.Cons car) j l2 hCb]
    simp only [except_bind_ok]
    rw [hst]
  · refine TreeAt.cons (by simp only [NIL_INDEX]; omega) (by rw [hgetj3]) hTa3 ?_
    rw [hgetj3]
    exact hTb3
  · have hlen : (j :: (Ca ++ Cb)).length = Ca.length + Cb.length + 1 := by
      simp
    rw [hlen]
    exact perm_take_assemble l Ca Cb j l2 hPa hPb hl2
  · have hlen : (j :: (Ca ++ Cb)).length = Ca.length + Cb.length + 1 := by
      simp
    rw [hlen]
    have hdl2 : l.drop (Ca.length + Cb.length + 1) = l2 := by
      have hstep2 : l.drop (Ca.length + Cb.length + 1) =
          (l.drop (Ca.length + Cb.length)).drop 1 := by
        rw [List.drop_drop, Nat.add_comm]
      rw [hstep2, hl2]
      rfl
    rw [hdl2]
    exact chain_after_alloc sB j l2 ⟨CellType.Cons car, cdr⟩ hCb hndj _
  · simp [hLb, hLa]
  · intro x hx
    simp only [List.mem_cons, List.mem_append] at hx
    push_neg at hx
    obtain ⟨hxj, hxa, hxb⟩ := hx
    rw [hframe3 x hxj, hFb x hxb, hFa x hxa]

/-- Re-parsing the canonical printed bytes of a well-formed tree (whose
symbols are all interned) succeeds, consumes exactly the printed bytes,
rebuilds the same abstract tree out of a prefix of the free chain, and
leaves the symbol table unchanged.  The second conjunct is the
`parse_sexps` loop on the body of a printed list, which stops right
before the closing paren. -/
theorem reparse_builds (f : Nat) :
    (∀ t env s l r input, WfSExp env t = true → env.symbols.Nodup →
      freeChainB s l s.free_index = true → l.Nodup →
      cellCount t ≤ l.length → SepB r = true → 2 * sexpSize t ≤ f →
      input = pbytesExp env t ++ r →
      ∃ idx s2 C, parse_sexp f input s env = .ok (some idx, s2, env, r) ∧
        TreeAt s2 idx t C ∧ C.Perm (l.take C.length) ∧
        freeChainB s2 (l.drop C.length) s2.free_index = true ∧
        s2.cells.length = s.cells.length ∧
        (∀ j, j ∉ C → s2.get j = s.get j)) ∧
    (∀ a b env s l r w input, (w = [] ∨ w = [32]) →
      WfSExp env (SExp.cons a b) = true → env.symbols.Nodup →
      freeChainB s l s.free_index = true → l.Nodup →
      cellCount (SExp.cons a b) ≤ l.length →
      2 * sexpSize (SExp.cons a b) - 1 ≤ f →
      input = w ++ (pbytesExp env a ++ (pbytesTail env b ++ r)) →
      ∃ idx s2 C, parse_sexps f input s env = .ok (some idx, s2, env, 41 :: r) ∧
        TreeAt s2 idx (SExp.cons a b) C ∧ C.Perm (l.take C.length) ∧
        freeChainB s2 (l.drop C.length) s2.free_index = true ∧
        s2.cells.length = s.cells.length ∧
        (∀ j, j ∉ C → s2.get j = s.get j)) := by
  induction f with
  | zero =>
    constructor
    · intro t env s l r input hW hnde hch hnd hcc hsep hsz hin
      have := sexpSize_pos t
      omega
    · intro a b env s l r w input hw hW hnde hch hnd hcc hsz hin
      have ha := sexpSize_pos a
      have hb := sexpSize_pos b
      simp only [sexpSize] at hsz
      omega
  | succ g ih =>
    obtain ⟨ih1, ihs⟩ := ih
    constructor
    · intro t env s l r input hW hnde hch hnd hcc hsep hsz hin
      cases t with
      | nil =>
        simp only [sexpSize] at hsz
        obtain ⟨g2, rfl⟩ : ∃ g2, g = g2 + 1 := ⟨g - 1, by omega⟩
        have hnt : next_token input = .ok (some Token.LeftParen, 41 :: r) := by
          rw [hin]
          simp only [pbytesExp, List.cons_append, List.nil_append]
          exact next_token_lparen (41 :: r)
        rw [parse_sexp_succ, parse_sexp_go_lparen _ input (41 :: r) s env hnt,
          parse_sexps_succ,
          parse_sexps_go_rparen _ _ (41 :: r) r s env (next_token_rparen r)]
        simp only [except_bind_ok, next_token_rparen]
        exact ⟨NIL_INDEX, s, [], rfl, TreeAt.nil, by simp, by simpa using hch,
          rfl, fun j hj => rfl⟩
      | num n =>
        simp only [WfSExp, Bool.and_eq_true, decide_eq_true_eq] at hW
        obtain ⟨hn0, hnmax⟩ := hW
        obtain ⟨hnen, hdig, hval⟩ := nat_decimal_spec n.toNat
        have hnt : next_token input =
            .ok (some (Token.Number (nat_decimal n.toNat)), r) := by
          rw [hin]
          simp only [pbytesExp]
          exact next_token_number _ r hnen hdig (SepB_not_digit r hsep)
        have hle : digitsToNat (nat_decimal n.toNat) ≤ 2147483647 := by
          rw [hval]
          omega
        have hpi : parse_i32 (nat_decimal n.toNat) = .ok n := by
          rw [parse_i32, if_pos hle, hval]
          congr 1
          omega
        rw [parse_sexp_succ, parse_sexp_go_number _ input r s env _ hnt]
        simp only [hpi, except_bind_ok]
        rcases hl : l with - | ⟨j, l2⟩
        · rw [hl] at hcc
          simp [cellCount] at hcc
        subst hl
        obtain ⟨halloc, hj0, hgetj, hchain2, hframe, hlen⟩ :=
          alloc_atom_post s j l2 (CellType.Number n) hch hnd
        rw [halloc]
        simp only [except_bind_ok]
        refine ⟨j, _, [j], rfl,
          TreeAt.num (by simp only [NIL_INDEX]; omega) (by rw [hgetj]),
          by simp, by simpa using hchain2, hlen, ?_⟩
        intro x hx
        exact hframe x (by simpa using hx)
      | sym k =>
        simp only [WfSExp] at hW
        cases hk : env.symbols.get? k with
        | none =>
          rw [hk] at hW
          simp at hW
        | some name =>
          rw [hk] at hW
          have hgd : env.symbols.getD k [] = name := by
            rw [List.getD_eq_getD_get?, hk]
            rfl
          have hnt : next_token input = .ok (some (Token.Symbol name), r) := by
            rw [hin]
            simp only [pbytesExp]
            rw [hgd]
            rcases tokenName_cases name hW with rfl | ⟨hnen, hall, hhd⟩
            · exact next_token_tick r
            · exact next_token_symbol name r hnen (fun c hc => (hall c hc).1) hhd
                (SepB_not_alnum r hsep)
          rw [parse_sexp_succ, parse_sexp_go_symbol _ input r s env name hnt]
          rw [add_sym_found env name k hnde hk]
          rcases hl : l with - | ⟨j, l2⟩
          · rw [hl] at hcc
            simp [cellCount] at hcc
          subst hl
          obtain ⟨halloc, hj0, hgetj, hchain2, hframe, hlen⟩ :=
            alloc_atom_post s j l2 (CellType.Symbol k) hch hnd
          simp only [halloc, except_bind_ok]
          refine ⟨j, _, [j], rfl,
            TreeAt.sym (by simp only [NIL_INDEX]; omega) (by rw [hgetj]),
            by simp, by simpa using hchain2, hlen, ?_⟩
          intro x hx
          exact hframe x (by simpa using hx)
      | cons a b =>
        simp only [sexpSize] at hsz
        have hnt : next_token input =
            .ok (some Token.LeftParen, (pbytesExp env a ++ pbytesTail env b) ++ r) := by
          rw [hin]
          simp only [pbytesExp, List.cons_append]
          exact next_token_lparen _
        rw [parse_sexp_succ, parse_sexp_go_lparen _ input _ s env hnt]
        obtain ⟨idx, s2, C, hq, hT, hP, hC, hL, hF⟩ :=
          ihs a b env s l r [] ((pbytesExp env a ++ pbytesTail env b) ++ r)
            (Or.inl rfl) hW hnde hch hnd hcc (by simp only [sexpSize]; omega)
            (by simp)
        rw [hq]
        simp only [except_bind_ok, next_token_rparen]
        exact ⟨idx, s2, C, rfl, hT, hP, hC, hL, hF⟩
    · intro a b env s l r w input hw hW hnde hch hnd hcc hsz hin
      have hsa := sexpSize_pos a
      have hsb := sexpSize_pos b
      have hWc := hW
      simp only [WfSExp, Bool.and_eq_true] at hW
      obtain ⟨hWa, hWb⟩ := hW
      simp only [sexpSize] at hsz
      simp only [cellCount] at hcc
      obtain ⟨tok, inputP, htok, hnrp, hndot⟩ :=
        pbytes_first_token env a (pbytesTail env b ++ r) hWa
      have hnt : next_token input = .ok (some tok, inputP) := by
        rw [hin, next_token_ws_cases w _ hw]
        exact htok
      rw [parse_sexps_succ,
        parse_sexps_go_else (parse_sexp g) (parse_sexps g) input inputP s env
          (some tok) hnt (by simp only [ne_eq, Option.some_inj]; exact hnrp)]
      have hpw : parse_sexp g input s env =
          parse_sexp g (pbytesExp env a ++ (pbytesTail env b ++ r)) s env := by
        rw [hin]
        exact parse_sexp_ws g w _ s env hw
      obtain ⟨car, sA, Ca, hqa, hTa, hPa, hCa, hLa, hFa⟩ :=
        ih1 a env s l (pbytesTail env b ++ r)
          (pbytesExp env a ++ (pbytesTail env b ++ r))
          hWa hnde hch hnd (by omega) (pbytesTail_sep env b r) (by omega) rfl
      rw [hpw, hqa]
      simp only [except_bind_ok]
      have hlCa : Ca.length = cellCount a := TreeAt_length _ _ _ _ hTa
      cases b with
      | nil =>
        obtain ⟨g2, rfl⟩ : ∃ g2, g = g2 + 1 :=
          ⟨g - 1, by simp only [sexpSize] at hsz; omega⟩
        simp only [pbytesTail, List.cons_append, List.nil_append]
        simp only [next_token_rparen, except_bind_ok]
        rw [if_neg (by decide)]
        rw [parse_sexps_succ,
          parse_sexps_go_rparen _ _ (41 :: r) r sA env (next_token_rparen r)]
        simp only [except_bind_ok]
        obtain ⟨j, s3, C, heq2, hT3, hP3, hC3, hL3, hF3⟩ :=
          reparse_assemble s sA sA env l a SExp.nil car NIL_INDEX Ca [] (41 :: r)
            hnd hTa hPa TreeAt.nil (by simp) (by simpa using hCa) hLa rfl hFa
            (fun x hx => rfl)
            (by simp only [cellCount] at hcc
                simp only [List.length_nil]
                omega)
        exact ⟨j, s3, C, heq2, hT3, hP3, hC3, hL3, hF3⟩
      | num n =>
        simp only [pbytesTail, List.cons_append, List.append_assoc,
          List.nil_append]
        rw [next_token_space, next_token_dot]
        simp only [except_bind_ok]
        simp only [if_true]
        have hpw2 : parse_sexp g (32 :: (nat_decimal n.toNat ++ 41 :: r)) sA env =
            parse_sexp g (nat_decimal n.toNat ++ 41 :: r) sA env :=
          parse_sexp_ws g [32] _ sA env (Or.inr rfl)
        rw [hpw2]
        obtain ⟨cdr, sB, Cb, hqb, hTb, hPb, hCb2, hLb, hFb⟩ :=
          ih1 (SExp.num n) env sA (l.drop Ca.length) (41 :: r)
            (nat_decimal n.toNat ++ 41 :: r)
            hWb hnde hCa (drop_nodup l Ca.length hnd)
            (by simp only [cellCount, List.length_drop] at hcc ⊢; omega)
            rfl
            (by simp only [sexpSize] at hsz ⊢; omega)
            (by simp only [pbytesExp])
        rw [hqb]
        simp only [except_bind_ok]
        obtain ⟨j, s3, C, heq2, hT3, hP3, hC3, hL3, hF3⟩ :=
          reparse_assemble s sA sB env l a (SExp.num n) car cdr Ca Cb (41 :: r)
            hnd hTa hPa hTb hPb hCb2 hLa hLb hFa hFb
            (by have h1 := TreeAt_length _ _ _ _ hTb
                simp only [cellCount] at hcc h1
                omega)
        exact ⟨j, s3, C, heq2, hT3, hP3, hC3, hL3, hF3⟩
      | sym k =>
        simp only [pbytesTail, List.cons_append, List.append_assoc,
          List.nil_append]
        rw [next_token_space, next_token_dot]
        simp only [except_bind_ok]
        simp only [if_true]
        have hpw2 : parse_sexp g (32 :: (env.symbols.getD k [] ++ 41 :: r)) sA env =
            parse_sexp g (env.symbols.getD k [] ++ 41 :: r) sA env :=
          parse_sexp_ws g [32] _ sA env (Or.inr rfl)
        rw [hpw2]
        obtain ⟨cdr, sB, Cb, hqb, hTb, hPb, hCb2, hLb, hFb⟩ :=
          ih1 (SExp.sym k) env sA (l.drop Ca.length) (41 :: r)
            (env.symbols.getD k [] ++ 41 :: r)
            hWb hnde hCa (drop_nodup l Ca.length hnd)
            (by simp only [cellCount, List.length_drop] at hcc ⊢; omega)
            rfl
            (by simp only [sexpSize] at hsz ⊢; omega)
            (by simp only [pbytesExp])
        rw [hqb]
        simp only [except_bind_ok]
        obtain ⟨j, s3, C, heq2, hT3, hP3, hC3, hL3, hF3⟩ :=
          reparse_assemble s sA sB env l a (SExp.sym k) car cdr Ca Cb (41 :: r)
            hnd hTa hPa hTb hPb hCb2 hLa hLb hFa hFb
            (by have h1 := TreeAt_length _ _ _ _ hTb
                simp only [cellCount] at hcc h1
                omega)
        exact ⟨j, s3, C, heq2, hT3, hP3, hC3, hL3, hF3⟩
      | cons h2 t2 =>
        simp only [pbytesTail, List.cons_append, List.append_assoc]
        obtain ⟨tok2, inputP2, htok2, hnrp2, hndot2⟩ :=
          pbytes_first_token env h2 (pbytesTail env t2 ++ r)
            (by simp only [WfSExp, Bool.and_eq_true] at hWb; exact hWb.1)
        rw [show next_token
              (32 :: (pbytesExp env h2 ++ (pbytesTail env t2 ++ r))) =
              .ok (some tok2, inputP2) from (next_token_space _).trans htok2]
        simp only [except_bind_ok]
        rw [if_neg (fun hcon => hndot2 (Option.some_inj.mp hcon))]
        obtain ⟨cdr, sB, Cb, hqb, hTb, hPb, hCb2, hLb, hFb⟩ :=
          ihs h2 t2 env sA (l.drop Ca.length) r [32]
            (32 :: (pbytesExp env h2 ++ (pbytesTail env t2 ++ r)))
            (Or.inr rfl) hWb hnde hCa (drop_nodup l Ca.length hnd)
            (by simp only [cellCount, List.length_drop] at hcc ⊢; omega)
            (by simp only [sexpSize] at hsz ⊢; omega)
            rfl
        rw [hqb]
        simp only [except_bind_ok]
        obtain ⟨j, s3, C, heq2, hT3, hP3, hC3, hL3, hF3⟩ :=
          reparse_assemble s sA sB env l a (SExp.cons h2 t2) car cdr Ca Cb (41 :: r)
            hnd hTa hPa hTb hPb hCb2 hLa hLb hFa hFb
            (by have h1 := TreeAt_length _ _ _ _ hTb
                simp only [cellCount] at hcc h1
                omega)
        exact ⟨j, s3, C, heq2, hT3, hP3, hC3, hL3, hF3⟩

theorem freeChainB_pos (s : CellStorage) :
    ∀ l i, freeChainB s l i = true → ∀ j ∈ l, 0 < j := by
  intro l
  induction l with
  | nil =>
    intro i h j hj
    simp at hj
  | cons a l ih =>
    intro i h j hj
    rw [freeChainB_cons_iff] at h
    obtain ⟨hia, ha, halt, hav, hrest⟩ := h
    rcases List.mem_cons.mp hj with rfl | hj2
    · exact ha
    · exact ih _ hrest j hj2

/-! ## C7 — print/parse round trip -/

/-- C7, amended: for every all-ASCII input on which `parse_sexp` succeeds
(starting from an arena whose free list is an intact chain, a
duplicate-free symbol table, and a `Free` nil sentinel), the parse yields
a tree `t`; printing that tree with enough fuel and re-parsing the printed
bytes into any arena with an intact chain of at least `cellCount t` free
cells succeeds, consumes the entire printed text, leaves the symbol table
unchanged, and rebuilds a tree structurally equal to `t` (the same
abstract `SExp`, with the same interned symbol indices). -/
theorem parse_print_parse_roundtrip (f fp : Nat) (input : List Nat)
    (s s3 : CellStorage) (env env2 : Env) (l l3 : List Nat)
    (idx : Nat) (s2 : CellStorage) (rest : List Nat)
    (hch : freeChainB s l s.free_index = true) (hnd : l.Nodup)
    (hnde : env.symbols.Nodup)
    (hascii : ∀ c ∈ input, c < 128)
    (hnil : (s.get NIL_INDEX).val = CellType.Free)
    (hp : parse_sexp f input s env = .ok (some idx, s2, env2, rest))
    (hch3 : freeChainB s3 l3 s3.free_index = true) (hnd3 : l3.Nodup) :
    ∃ t C, TreeAt s2 idx t C ∧
      (sexpSize t ≤ fp → cellCount t ≤ l3.length →
        ∃ idx2 s4 C2,
          parse_sexp (2 * sexpSize t) (print_exp fp s2 env2 idx) s3 env2 =
            .ok (some idx2, s4, env2, []) ∧
          TreeAt s4 idx2 t C2) := by
  obtain ⟨t, C, hT, hP, hC, hL, hF, ⟨d, hE⟩, hN, hW, hR⟩ :=
    (parse_builds_tree f).1 input s env l idx s2 env2 rest hch hnd hnde hascii hp
  refine ⟨t, C, hT, ?_⟩
  intro hfp hcell
  have h0C : (0 : Nat) ∉ C := by
    intro h0
    have h0t := hP.mem_iff.mp h0
    have := freeChainB_pos s l s.free_index hch 0 (List.take_subset _ _ h0t)
    omega
  have hnil2 : (s2.get NIL_INDEX).val = CellType.Free := by
    rw [hF NIL_INDEX (by simp only [NIL_INDEX]; exact h0C)]
    exact hnil
  have hprint : print_exp fp s2 env2 idx = pbytesExp env2 t :=
    (printF_correct fp).1 s2 env2 idx t C hT hW hnil2 hfp
  obtain ⟨idx2, s4, C2, hq, hT2, -, -, -, -⟩ :=
    (reparse_builds (2 * sexpSize t)).1 t env2 s3 l3 []
      (print_exp fp s2 env2 idx) hW hN hch3 hnd3 hcell rfl (le_refl _)
      (by rw [hprint]; simp)
  exact ⟨idx2, s4, C2, hq, hT2⟩

/-- C7, witness: parsing `(1 . 2)` in a fresh 8-cell arena yields the tree
rooted at cell 3; printing it and re-parsing the printed text into a fresh
arena succeeds and rebuilds the same tree. -/
theorem parse_print_parse_roundtrip_witness :
    ∃ s2, parse_sexp 6 (strName "(1 . 2)") (init_storage 8) stdEnv =
        .ok (some 3, s2, stdEnv, []) ∧
      ∃ t C, TreeAt s2 3 t C ∧
        (sexpSize t ≤ 8 → cellCount t ≤ ([1, 2, 3, 4, 5, 6, 7] : List Nat).length →
          ∃ idx2 s4 C2,
            parse_sexp (2 * sexpSize t) (print_exp 8 s2 stdEnv 3)
              (init_storage 8) stdEnv = .ok (some idx2, s4, stdEnv, []) ∧
            TreeAt s4 idx2 t C2) :=
  ⟨_, rfl, parse_print_parse_roundtrip 6 8 (strName "(1 . 2)") (init_storage 8)
    (init_storage 8) stdEnv stdEnv [1, 2, 3, 4, 5, 6, 7] [1, 2, 3, 4, 5, 6, 7] 3 _ []
    (by decide) (by decide) (by decide) (by decide) (by decide) rfl (by decide)
    (by decide)⟩

/-! ## C1 — arena leak-freedom -/

theorem countP_getD_congr : ∀ (cs cs2 : List Cell), cs2.length = cs.length →
    (∀ x, cs2.getD x Cell.empty = cs.getD x Cell.empty) →
    cs2.countP (fun c => c.val == CellType.Free) =
      cs.countP (fun c => c.val == CellType.Free) := by
  intro cs
  induction cs with
  | nil =>
    intro cs2 hlen hx
    cases cs2 with
    | nil => rfl
    | cons b cs2 => simp at hlen
  | cons a cs ih =>
    intro cs2 hlen hx
    cases cs2 with
    | nil => simp at hlen
    | cons b cs2 =>
      have hb : b = a := by simpa using hx 0
      subst hb
      rw [List.countP_cons, List.countP_cons,
        ih cs2 (by simpa using hlen) (fun x => by simpa using hx (x + 1))]

theorem countP_free_split : ∀ (cs cs2 : List Cell) (idx : Nat),
    cs2.length = cs.length → idx < cs.length →
    (∀ x, x ≠ idx → cs2.getD x Cell.empty = cs.getD x Cell.empty) →
    (cs.getD idx Cell.empty).val = CellType.Free →
    (cs2.getD idx Cell.empty).val ≠ CellType.Free →
    cs.countP (fun c => c.val == CellType.Free) =
      cs2.countP (fun c => c.val == CellType.Free) + 1 := by
  intro cs
  induction cs with
  | nil =>
    intro cs2 idx hlen hlt
    simp at hlt
  | cons a cs ih =>
    intro cs2 idx hlen hlt hframe hfree hnfree
    cases cs2 with
    | nil => simp at hlen
    | cons b cs2 =>
      cases idx with
      | zero =>
        simp only [List.getD_cons_zero] at hfree hnfree
        have htail := countP_getD_congr cs cs2 (by simpa using hlen)
          (fun x => by simpa using hframe (x + 1) (by omega))
        rw [List.countP_cons, List.countP_cons, htail]
        have hpa : (a.val == CellType.Free) = true := by simp [hfree]
        have hpb : (b.val == CellType.Free) = false := by
          rw [beq_eq_false_iff_ne]
          exact hnfree
        simp [hpa, hpb]
      | succ idx2 =>
        have hb : b = a := by simpa using hframe 0 (by omega)
        subst hb
        rw [List.countP_cons, List.countP_cons,
          ih cs2 idx2 (by simpa using hlen) (by simpa using hlt)
            (fun x hx => by simpa using hframe (x + 1) (by omega))
            (by simpa using hfree)
            (by simpa using hnfree)]
        omega

/-- Replacing the single `Free` cell `idx` by a non-free cell lowers the
free count by exactly one. -/
theorem free_count_flip (s s2 : CellStorage) (idx : Nat)
    (hlen : s2.cells.length = s.cells.length) (hlt : idx < s.cells.length)
    (hframe : ∀ x, x ≠ idx → s2.get x = s.get x)
    (hfree : (s.get idx).val = CellType.Free)
    (hnfree : (s2.get idx).val ≠ CellType.Free) :
    free_count s = free_count s2 + 1 :=
  countP_free_split s.cells s2.cells idx hlen hlt hframe hfree hnfree

set_option maxHeartbeats 4000000

/-- C1, counterexample: the expression `(hd (cons 1 2))` is built purely
from the hd/cons operators and does not invoke quote, yet after evaluating
it and freeing both the input tree and the result through the REPL loop
body, the arena has 63 free cells where it had 64 before parsing: the
`Cons` cell allocated by `cons` for the intermediate result is never
freed. -/
theorem hd_cons_leaks_cell :
    ∃ idx s2 env2 s4,
      parse_sexp 8 (strName "(hd (cons 1 2))") (init_storage 64) stdEnv =
        .ok (some idx, s2, env2, []) ∧
      loop_body 64 idx s2 env2 stdNS = some s4 ∧
      free_count (init_storage 64) = 64 ∧ free_count s4 = 63 := by
  refine ⟨9, _, stdEnv, _, rfl, rfl, by decide, by decide⟩

set_option maxHeartbeats 200000

/-- C1, amended: leak-freedom does hold for top-level expressions that
evaluate without allocating an intermediate tree — here the base case, a
single number atom.  Parsing consumes exactly one chain cell; evaluation
returns the cell itself without touching the arena; freeing the result
relinks that cell and the subsequent free of the (identical) input tree is
a harmless no-op on the already-free cell, so the free count returns
exactly to its pre-parse value (nothing is leaked and the double free has
no effect). -/
theorem number_atom_no_leak (f fe : Nat) (input : List Nat) (s : CellStorage)
    (env : Env) (l : List Nat) (n : Int) (idx : Nat) (s2 : CellStorage)
    (env2 : Env) (rest : List Nat)
    (hch : freeChainB s l s.free_index = true) (hnd : l.Nodup)
    (hnde : env.symbols.Nodup) (hascii : ∀ c ∈ input, c < 128)
    (hnil : (s.get NIL_INDEX).val = CellType.Free)
    (hp : parse_sexp f input s env = .ok (some idx, s2, env2, rest))
    (hatom : (s2.get idx).val = CellType.Number n) :
    ∃ s4, loop_body (fe + 1) idx s2 env2 stdNS = some s4 ∧
      free_count s4 = free_count s := by
  obtain ⟨t, C, hT, hP, hC, hL, hF, ⟨d, hE⟩, hN, hW, hR⟩ :=
    (parse_builds_tree f).1 input s env l idx s2 env2 rest hch hnd hnde hascii hp
  cases hT with
  | nil =>
    exfalso
    have h0 : s2.get NIL_INDEX = s.get NIL_INDEX := hF NIL_INDEX (by simp)
    rw [h0, hnil] at hatom
    cases hatom
  | sym hi hv =>
    rw [hv] at hatom
    cases hatom
  | cons hi hv ha hb =>
    rw [hv] at hatom
    cases hatom
  | num hi hv =>
    rename_i n0
    rcases hl : l with - | ⟨j, l2⟩
    · rw [hl] at hP
      simp at hP
    subst hl
    have hij : idx = j := by
      have := hP.mem_iff.mp (show idx ∈ [idx] by simp)
      simpa using this
    subst hij
    rw [freeChainB_cons_iff] at hch
    obtain ⟨hfi, hjpos, hjlt, hjfree, hrestch⟩ := hch
    have hjlt2 : idx < s2.cells.length := by
      rw [hL]
      exact hjlt
    have hcnt : free_count s = free_count s2 + 1 := by
      refine free_count_flip s s2 idx hL hjlt ?_ hjfree ?_
      · intro x hx
        exact hF x (by simpa using hx)
      · rw [hatom]
        simp
    have hia : is_atom idx s2 = true := by
      rw [is_atom, CellStorage.val_of, hatom]
    have heval : eval (fe + 1) idx s2 env2 stdNS = (.ok idx, s2, env2) := by
      simp only [eval, evalF, hia, if_true]
    have hfree1 : CellStorage.free_cell (fe + 1) s2 idx =
        some ⟨idx, s2.cells.set idx (Cell.new CellType.Free s2.free_index)⟩ := by
      simp only [CellStorage.free_cell, hatom]
    have hg3 : (CellStorage.mk idx
        (s2.cells.set idx (Cell.new CellType.Free s2.free_index))).get idx =
        Cell.new CellType.Free s2.free_index :=
      get_set_self _ _ _ _ hjlt2
    have hg3v : ((CellStorage.mk idx
        (s2.cells.set idx (Cell.new CellType.Free s2.free_index))).get idx).val =
        CellType.Free := by
      rw [hg3]
      rfl
    have hfree2 : CellStorage.free_cell (fe + 1)
        (CellStorage.mk idx
          (s2.cells.set idx (Cell.new CellType.Free s2.free_index))) idx =
        some (CellStorage.mk idx
          (s2.cells.set idx (Cell.new CellType.Free s2.free_index))) := by
      simp only [CellStorage.free_cell, hg3v]
    have hflip2 : free_count (CellStorage.mk idx
        (s2.cells.set idx (Cell.new CellType.Free s2.free_index))) =
        free_count s2 + 1 := by
      refine free_count_flip _ s2 idx (by simp) (by simpa using hjlt2) ?_ ?_ ?_
      · intro x hx
        exact (get_set_ne idx s2.free_index s2.cells idx x _
          (fun hh => hx hh.symm)).symm
      · rw [hg3]
        rfl
      · rw [hatom]
        simp
    refine ⟨CellStorage.mk idx
      (s2.cells.set idx (Cell.new CellType.Free s2.free_index)), ?_, by omega⟩
    simp only [loop_body, heval, hfree1]
    simpa using hfree2

/-- C1, witness: parsing the number `7` into a fresh 8-cell arena and
running one REPL iteration brings the free count back to its pre-parse
value of 8. -/
theorem number_atom_no_leak_witness :
    ∃ s2, parse_sexp 1 (strName "7") (init_storage 8) stdEnv =
        .ok (some 1, s2, stdEnv, []) ∧
      (s2.get 1).val = CellType.Number 7 ∧
      ∃ s4, loop_body (0 + 1) 1 s2 stdEnv stdNS = some s4 ∧
        free_count s4 = free_count (init_storage 8) :=
  ⟨_, rfl, rfl, number_atom_no_leak 1 0 (strName "7") (init_storage 8) stdEnv
    [1, 2, 3, 4, 5, 6, 7] 7 1 _ stdEnv [] (by decide) (by decide) (by decide)
    (by decide) (by decide) rfl rfl⟩
